import Mathlib

/-!
Shallow embedding of the routing engine of `rust-pinecone` (`src/router.rs`),
with the protocol state machine modelled as pure functions over an explicit
`RouterState`.  Rust `HashMap`s become association lists, wall-clock times
become natural numbers (seconds), channel sends become an explicit output
list, and `tokio::spawn`ed follow-up work (deferred teardowns, reparent
requests) is returned as explicit data and executed after the spawning
handler releases its locks, which is what the lock discipline of the source
forces.  Calls to `Option::unwrap` on a `None` (a panic) are modelled by the
surrounding function returning `none`.
-/

namespace RustPinecone

/-- 32-byte node identity (`pub type PublicKey = [u8; 32]`), as a byte list;
Rust's derived `Ord` on `[u8; 32]` is lexicographic over the fixed length. -/
abbrev PublicKey := List Nat

/-- `pub type Port = u64`; 0 is reserved for "self". -/
abbrev Port := Nat

/-- `pub type SequenceNumber = u64`. -/
abbrev SequenceNumber := Nat

/-- `pub type SnekPathId = u64`. -/
abbrev SnekPathId := Nat

/-- Lexicographic strict order on byte strings: Rust's `Ord` on `[u8; 32]`. -/
def keyLt : PublicKey → PublicKey → Bool
  | [], [] => false
  | [], _ :: _ => true
  | _ :: _, [] => false
  | a :: as, b :: bs => decide (a < b) || (decide (a = b) && keyLt as bs)

/-- `SNEK_EXPIRY_PERIOD`: one hour, in seconds. -/
def SNEK_EXPIRY_PERIOD : Nat := 60 * 60

/-- `ANNOUNCEMENT_TIMEOUT`: 45 minutes, in seconds. -/
def ANNOUNCEMENT_TIMEOUT : Nat := 45 * 60

/-- `u64::MAX`, the initial value of best-ordering accumulators. -/
def U64MAX : Nat := 2 ^ 64 - 1

/-- `Root { public_key, sequence_number }` (from `crate::tree`). -/
structure Root where
  public_key : PublicKey
  sequence_number : SequenceNumber
deriving DecidableEq, Repr

/-- Modelled from the spec: root ordering is lexicographic on `public_key`
first, then by `sequence_number` (`tree.rs` is not under `src/`). -/
def rootLt (a b : Root) : Bool :=
  keyLt a.public_key b.public_key ||
    (decide (a.public_key = b.public_key) && decide (a.sequence_number < b.sequence_number))

/-- One element of a tree announcement's signature chain; the signature bytes
themselves are cryptographic material outside the engine core and are not
modelled. -/
structure RootAnnouncementSignature where
  signing_public_key : PublicKey
  destination_port : Port
deriving DecidableEq, Repr

/-- `TreeAnnouncement { root, signatures, receive_time, receive_order }`.
`receive_time` is in seconds. -/
structure TreeAnnouncement where
  root : Root
  signatures : List RootAnnouncementSignature
  receive_time : Nat
  receive_order : SequenceNumber
deriving DecidableEq, Repr

/-- Coordinates are the chain of `destination_port` values of an
announcement's signature list. -/
abbrev Coordinates := List Port

namespace TreeAnnouncement

/-- Modelled from the spec: `coords()` is the sequence of `destination_port`
values in the signature list (`tree.rs` is not under `src/`). -/
def coords (a : TreeAnnouncement) : Coordinates :=
  a.signatures.map (·.destination_port)

/-- Modelled from the spec: the peer that forwarded the announcement sits one
hop before us, so its own coordinates are ours without the final port it
appended. -/
def peer_coords (a : TreeAnnouncement) : Coordinates :=
  a.coords.dropLast

/-- Modelled from the spec: an announcement received from peer `p` is clean
when its last signature was made by `p` and no signer appears twice. -/
def is_clean (a : TreeAnnouncement) (p : PublicKey) : Bool :=
  (match a.signatures.getLast? with
    | some s => decide (s.signing_public_key = p)
    | none => false) &&
  (a.signatures.map (·.signing_public_key)).Nodup

/-- Modelled from the spec: the chain is a loop of child `k` when `k` appears
among the signers. -/
def is_loop_of_child (a : TreeAnnouncement) (k : PublicKey) : Bool :=
  a.signatures.any (fun s => decide (s.signing_public_key = k))

/-- Modelled from the spec: two announcements carry the same root key. -/
def has_same_root_key (a b : TreeAnnouncement) : Bool :=
  decide (a.root.public_key = b.root.public_key)

/-- Modelled from the spec: an announcement replays an old sequence against a
previously stored one when its root sequence number is not strictly greater. -/
def replayed_old_sequence (a stored : TreeAnnouncement) : Bool :=
  !decide (a.root.sequence_number > stored.root.sequence_number)

/-- `append_signature`: extend the chain with our own signature naming the
destination port; the cryptographic signature bytes are not modelled. -/
def append_signature (a : TreeAnnouncement) (k : PublicKey) (port : Port) :
    TreeAnnouncement :=
  { a with signatures := a.signatures ++ [⟨k, port⟩] }

end TreeAnnouncement

/-- Length of the longest common leading run of two coordinate sequences. -/
def commonLen : Coordinates → Coordinates → Nat
  | a :: as, b :: bs => if a = b then commonLen as bs + 1 else 0
  | _, _ => 0

/-- Modelled from the spec: `distance_to` counts the hops between two
coordinates, the sum of both lengths minus twice the shared leading run. -/
def Coordinates.distance_to (a b : Coordinates) : Nat :=
  (a.length - commonLen a b) + (b.length - commonLen a b)

/-- `SnekPathIndex { public_key, path_id }` (from `crate::snek`). -/
structure SnekPathIndex where
  public_key : PublicKey
  path_id : SnekPathId
deriving DecidableEq, Repr

/-- `SnekPath` entry: `{ index, origin, target, source, destination,
last_seen, root, active }`. -/
structure SnekPath where
  index : SnekPathIndex
  origin : PublicKey
  target : PublicKey
  source : Port
  destination : Port
  last_seen : Nat
  root : Root
  active : Bool
deriving DecidableEq, Repr

/-- Modelled from the spec: `valid()` holds when the entry's `root` equals the
node's current root and `last_seen` is within the SNEK expiry period
(`snek.rs` is not under `src/`); the current root and current time are passed
explicitly. -/
def SnekPath.validAt (p : SnekPath) (now : Nat) (currentRoot : Root) : Bool :=
  decide (p.root = currentRoot) && decide (now - p.last_seen ≤ SNEK_EXPIRY_PERIOD)

/-- `SnekBootstrap { root, destination_key, source, path_id }`. -/
structure SnekBootstrap where
  root : Root
  destination_key : PublicKey
  source : Coordinates
  path_id : SnekPathId
deriving DecidableEq, Repr

/-- `SnekBootstrapAck` frame. -/
structure SnekBootstrapAck where
  destination_coordinates : Coordinates
  destination_key : PublicKey
  source_coordinates : Coordinates
  source_key : PublicKey
  root : Root
  path_id : SnekPathId
deriving DecidableEq, Repr

/-- `SnekSetup { root, destination, destination_key, source_key, path_id }`. -/
structure SnekSetup where
  root : Root
  destination : Coordinates
  destination_key : PublicKey
  source_key : PublicKey
  path_id : SnekPathId
deriving DecidableEq, Repr

/-- `SnekSetupAck { root, destination_key, path_id }`. -/
structure SnekSetupAck where
  root : Root
  destination_key : PublicKey
  path_id : SnekPathId
deriving DecidableEq, Repr

/-- `SnekTeardown { root, destination_key, path_id }`. -/
structure SnekTeardown where
  root : Root
  destination_key : PublicKey
  path_id : SnekPathId
deriving DecidableEq, Repr

/-- `TreeRouted` data packet (`crate::tree::TreePacket`): destination
coordinates plus an opaque payload. -/
structure TreePacket where
  destination_coordinates : Coordinates
  payload : List Nat
deriving DecidableEq, Repr

/-- `SnekRouted` data packet (`crate::snek::SnekPacket`). -/
structure SnekPacket where
  destination_key : PublicKey
  source_key : PublicKey
  payload : List Nat
deriving DecidableEq, Repr

/-- The eight-variant `Frame` sum type. -/
inductive Frame where
  | treeRouted (p : TreePacket)
  | snekRouted (p : SnekPacket)
  | treeAnnouncement (a : TreeAnnouncement)
  | snekBootstrap (b : SnekBootstrap)
  | snekBootstrapAck (a : SnekBootstrapAck)
  | snekSetup (s : SnekSetup)
  | snekSetupAck (a : SnekSetupAck)
  | snekTeardown (t : SnekTeardown)
deriving DecidableEq, Repr

/-- A send of a frame to a peer (or to self, which `send` turns into local
delivery for data frames and a silent drop for protocol frames). -/
abbrev Output := Frame × PublicKey

/-- Association-list lookup, standing in for `HashMap::get`. -/
def alookup {α β : Type} [DecidableEq α] (l : List (α × β)) (k : α) : Option β :=
  (l.find? (fun p => decide (p.1 = k))).map (·.2)

/-- Association-list membership, standing in for `HashMap::contains_key`. -/
def acontains {α β : Type} [DecidableEq α] (l : List (α × β)) (k : α) : Bool :=
  l.any (fun p => decide (p.1 = k))

/-- Association-list insert-or-replace, standing in for `HashMap::insert`. -/
def ainsert {α β : Type} [DecidableEq α] (l : List (α × β)) (k : α) (v : β) :
    List (α × β) :=
  if acontains l k then l.map (fun p => if p.1 = k then (k, v) else p)
  else l ++ [(k, v)]

/-- Association-list removal, standing in for `HashMap::remove`. -/
def aerase {α β : Type} [DecidableEq α] (l : List (α × β)) (k : α) :
    List (α × β) :=
  l.filter (fun p => !decide (p.1 = k))

/-- The mutable state owned by a `Router`, with each `RwLock` cell a field.
The reparent timer is reduced to whether it has expired; `upload`/`download`
connections are not part of the protocol state (sends are collected as
outputs). -/
structure RouterState where
  publicKey : PublicKey
  parent : PublicKey
  announcements : List (PublicKey × TreeAnnouncement)
  sequence : SequenceNumber
  ordering : SequenceNumber
  reparentTimerExpired : Bool
  ports : List (Port × Option PublicKey)
  ascending : Option SnekPath
  descending : Option SnekPath
  paths : List (SnekPathIndex × SnekPath)
  candidate : Option SnekPath
deriving DecidableEq, Repr

namespace RouterState

/-- `tree_announcement(of)`. -/
def treeAnnouncementOf (s : RouterState) (of : PublicKey) : Option TreeAnnouncement :=
  alookup s.announcements of

/-- `port(of)`: 0 for self, otherwise scan the port table for the peer. -/
def portOf (s : RouterState) (of : PublicKey) : Option Port :=
  if s.publicKey = of then some 0
  else (s.ports.find? (fun pr => decide (pr.2 = some of))).map (·.1)

/-- `get_peer_on_port(port)`: self on port 0, otherwise the port table entry. -/
def getPeerOnPort (s : RouterState) (port : Port) : Option PublicKey :=
  if port = 0 then some s.publicKey
  else match alookup s.ports port with
    | none => none
    | some peer => peer

/-- `peers()`: every known peer in the port table. -/
def peersOf (s : RouterState) : List PublicKey :=
  s.ports.filterMap (·.2)

/-- `current_announcement()`: the announcement stored for the parent, or a
synthesized root announcement.  The source stamps `SystemTime::now()` on the
synthesized value; that timestamp is read by no consumer and is fixed to 0. -/
def currentAnnouncement (s : RouterState) : TreeAnnouncement :=
  match s.treeAnnouncementOf s.parent with
  | some a => a
  | none =>
      { root := { public_key := s.publicKey, sequence_number := s.sequence }
        signatures := []
        receive_time := 0
        receive_order := s.ordering }

/-- `coordinates()`. -/
def coordinates (s : RouterState) : Coordinates :=
  s.currentAnnouncement.coords

/-- `current_root()`. -/
def currentRoot (s : RouterState) : Root :=
  s.currentAnnouncement.root

end RouterState

/-- `dht_ordered(a, b, c)`: `a < b < c` without wrap-around. -/
def dhtOrdered (a b c : PublicKey) : Bool :=
  keyLt a b && keyLt b c

/-- `is_better_next_tree_hop_candidate`. -/
def isBetterNextTreeHopCandidate (peerDistance bestDistance : Nat)
    (peerOrder bestOrder : SequenceNumber) (candidateExists : Bool) : Bool :=
  if peerDistance < bestDistance then true
  else if peerDistance > bestDistance then false
  else candidateExists && decide (peerOrder < bestOrder)

/-- The body of `next_tree_hop`'s candidate loop for one peer. -/
def nextTreeHopStep (s : RouterState) (destCoords : Coordinates)
    (from_ : PublicKey) (acc : Option PublicKey × Nat × SequenceNumber)
    (peer : PublicKey) : Option PublicKey × Nat × SequenceNumber :=
  if peer = from_ then acc
  else match s.treeAnnouncementOf peer with
    | none => acc
    | some ann =>
        if s.currentRoot ≠ ann.root then acc
        else
          let peerCoordinates := ann.peer_coords
          let distanceToPeer := peerCoordinates.distance_to destCoords
          if isBetterNextTreeHopCandidate distanceToPeer acc.2.1
              ann.receive_order acc.2.2 acc.1.isSome then
            (some peer, distanceToPeer, ann.receive_order)
          else acc

/-- `next_tree_hop(frame, from)`, with the frame reduced to its destination
coordinates. -/
def nextTreeHop (s : RouterState) (destCoords : Coordinates)
    (from_ : PublicKey) : Option PublicKey :=
  if destCoords = s.coordinates then some s.publicKey
  else
    let ourDistance := destCoords.distance_to s.coordinates
    if ourDistance = 0 then some s.publicKey
    else
      (s.peersOf.foldl (nextTreeHopStep s destCoords from_)
        (none, ourDistance, U64MAX)).1

/-- Accumulator of `next_snek_hop`: the running `best_key` and `best_peer`. -/
abbrev SnekAcc := PublicKey × Option PublicKey

/-- `next_snek_hop`, parent phase: possibly start towards the root via the
parent (only entered when we are not root). -/
def snekHopParent (s : RouterState) (destinationKey : PublicKey)
    (bootstrap : Bool) (acc : SnekAcc) : SnekAcc :=
  let acc :=
    if bootstrap && decide (acc.1 = destinationKey) then
      (s.currentAnnouncement.root.public_key, some s.parent)
    else acc
  if dhtOrdered acc.1 destinationKey s.currentAnnouncement.root.public_key then
    (s.currentAnnouncement.root.public_key, some s.parent)
  else acc

/-- `next_snek_hop`, one candidate signer reached via a given peer (used both
for our own ancestors via the parent and for the ancestors of each peer). -/
def snekHopSigner (destinationKey : PublicKey) (bootstrap : Bool)
    (via : PublicKey) (acc : SnekAcc) (signer : PublicKey) : SnekAcc :=
  let acc :=
    if !bootstrap && decide (signer = destinationKey) && !decide (acc.1 = destinationKey) then
      (signer, some via)
    else acc
  if dhtOrdered destinationKey signer acc.1 then (signer, some via)
  else acc

/-- `next_snek_hop`, direct-peer phase: prefer a direct peering whenever the
best key is itself a direct peer. -/
def snekHopDirect (acc : SnekAcc) (peer : PublicKey) : SnekAcc :=
  if acc.1 = peer then (peer, some peer) else acc

/-- `next_snek_hop`, DHT phase for one path entry; the `unwrap` of
`get_peer_on_port` is a panic, modelled as `none`. -/
def snekHopPath (s : RouterState) (now : Nat) (destinationKey : PublicKey)
    (bootstrap : Bool) (acc : SnekAcc) (pr : SnekPathIndex × SnekPath) :
    Option SnekAcc :=
  if !(pr.2.validAt now s.currentRoot) || decide (pr.2.source = 0) then some acc
  else if !bootstrap && !pr.2.active then some acc
  else
    match
      (if !bootstrap && decide (pr.1.public_key = destinationKey)
          && !decide (acc.1 = destinationKey) then
        (s.getPeerOnPort pr.2.source).map (fun p => (pr.1.public_key, some p))
      else some acc : Option SnekAcc)
    with
    | none => none
    | some acc =>
        if dhtOrdered destinationKey pr.1.public_key acc.1 then
          (s.getPeerOnPort pr.2.source).map (fun p => (pr.1.public_key, some p))
        else some acc

/-- Fold the DHT phase of `next_snek_hop` over the path table. -/
def snekHopPaths (s : RouterState) (now : Nat) (destinationKey : PublicKey)
    (bootstrap : Bool) : List (SnekPathIndex × SnekPath) → SnekAcc →
    Option SnekAcc
  | [], acc => some acc
  | pr :: rest, acc =>
      match snekHopPath s now destinationKey bootstrap acc pr with
      | none => none
      | some acc => snekHopPaths s now destinationKey bootstrap rest acc

/-- `next_snek_hop(frame, bootstrap, traffic)`, with the frame reduced to its
destination key; `none` models a panic inside the function, `some r` the
Rust return value `r`. -/
def nextSnekHop (s : RouterState) (now : Nat) (destinationKey : PublicKey)
    (bootstrap traffic : Bool) : Option (Option PublicKey) :=
  if !bootstrap && decide (s.publicKey = destinationKey) then
    some (some s.publicKey)
  else
    let acc : SnekAcc := (s.publicKey, if traffic then none else some s.publicKey)
    let acc :=
      if s.parent ≠ s.publicKey then
        let acc := snekHopParent s destinationKey bootstrap acc
        s.currentAnnouncement.signatures.foldl
          (fun acc sig =>
            snekHopSigner destinationKey bootstrap s.parent acc sig.signing_public_key)
          acc
      else acc
    let acc :=
      s.announcements.foldl
        (fun acc pa =>
          pa.2.signatures.foldl
            (fun acc sig =>
              snekHopSigner destinationKey bootstrap pa.1 acc sig.signing_public_key)
            acc)
        acc
    let acc := s.peersOf.foldl snekHopDirect acc
    match snekHopPaths s now destinationKey bootstrap s.paths acc with
    | none => none
    | some acc => some acc.2

/-- `get_teardown(path_key, path_id)`. -/
def getTeardown (s : RouterState) (pathKey : PublicKey) (pathId : SnekPathId) :
    SnekTeardown :=
  { root := s.currentRoot, destination_key := pathKey, path_id := pathId }

/-- `teardown_path(from, path_key, path_id)`: tear down any matching route and
return the next-hop ports the teardown has to be forwarded to. -/
def teardownPath (s : RouterState) (from_ : Port) (pathKey : PublicKey)
    (pathId : SnekPathId) : RouterState × List Port :=
  match s.ascending with
  | some asc =>
      if asc.index.public_key = pathKey ∧ asc.index.path_id = pathId then
        if from_ = asc.destination ∨ from_ = 0 then
          ({ s with paths := aerase s.paths asc.index, ascending := none },
            [asc.destination])
        else teardownPathDescending s from_ pathKey pathId
      else teardownPathDescending s from_ pathKey pathId
  | none => teardownPathDescending s from_ pathKey pathId
where
  /-- Second stage of `teardown_path`: the descending cell. -/
  teardownPathDescending (s : RouterState) (from_ : Port) (pathKey : PublicKey)
      (pathId : SnekPathId) : RouterState × List Port :=
    match s.descending with
    | some desc =>
        if desc.index.public_key = pathKey ∧ desc.index.path_id = pathId then
          if from_ = desc.destination ∨ from_ = 0 then
            ({ s with paths := aerase s.paths desc.index, descending := none },
              [desc.destination])
          else teardownPathTable s from_ pathKey pathId
        else teardownPathTable s from_ pathKey pathId
    | none => teardownPathTable s from_ pathKey pathId
  /-- Last stage of `teardown_path`: scan the general path table. -/
  teardownPathTable (s : RouterState) (from_ : Port) (pathKey : PublicKey)
      (pathId : SnekPathId) : RouterState × List Port :=
    match s.paths.find?
        (fun pr => decide (pr.1.public_key = pathKey) && decide (pr.1.path_id = pathId)) with
    | some pr =>
        if from_ = 0 then
          ({ s with paths := aerase s.paths pr.1 }, [pr.2.destination, pr.2.source])
        else if from_ = pr.2.source then
          ({ s with paths := aerase s.paths pr.1 }, [pr.2.destination])
        else if from_ = pr.2.destination then
          ({ s with paths := aerase s.paths pr.1 }, [pr.2.source])
        else (s, [])
    | none => (s, [])

/-- `send_teardown_for_existing_path(from, path_key, path_id)`: run the
teardown and forward the teardown frame to every returned hop.  The source
spawns this on a task that blocks on the path locks, so it runs after the
spawning handler; a failing port lookup panics only that detached task, so
such hops simply produce no send. -/
def sendTeardownForExistingPath (s : RouterState) (from_ : Port)
    (pathKey : PublicKey) (pathId : SnekPathId) : RouterState × List Output :=
  let frame := getTeardown s pathKey pathId
  let (s', hops) := teardownPath s from_ pathKey pathId
  (s', hops.filterMap (fun h =>
    (s'.getPeerOnPort h).map (fun peer => (Frame.snekTeardown frame, peer))))

/-- Run a queue of deferred `send_teardown_for_existing_path(0, _, _)` calls
(the spawned cleanups of `handle_setup`, `handle_bootstrap_ack` and
`maintain_snek`), collecting their sends. -/
def runTeardowns (s : RouterState) : List SnekPathIndex →
    RouterState × List Output
  | [] => (s, [])
  | k :: rest =>
      let (s1, out1) := sendTeardownForExistingPath s 0 k.public_key k.path_id
      let (s2, out2) := runTeardowns s1 rest
      (s2, out1 ++ out2)

/-- `send_teardown_for_rejected_path(path_key, path_id, via)`: send a teardown
back through `via`; the `unwrap` of the port lookup panics (`none`) when the
port is unknown. -/
def sendTeardownForRejectedPath (s : RouterState) (pathKey : PublicKey)
    (pathId : SnekPathId) (via : Port) : Option (List Output) :=
  let frame := getTeardown s pathKey pathId
  (s.getPeerOnPort via).map (fun peer => [(Frame.snekTeardown frame, peer)])

/-- `handle_teardown(from, rx)`. -/
def handleTeardown (s : RouterState) (from_ : Port) (rx : SnekTeardown) :
    RouterState × List Port :=
  teardownPath s from_ rx.destination_key rx.path_id

/-- The `update` decision chain of the terminal branch of `handle_setup`. -/
def handleSetupUpdate (s : RouterState) (rx : SnekSetup) (now : Nat) : Bool :=
  if s.currentRoot ≠ rx.root then false
  else if !(keyLt rx.source_key s.publicKey) then false
  else match s.descending with
    | some desc =>
        if desc.validAt now s.currentRoot then
          if decide (desc.index.public_key = rx.source_key)
              && !decide (rx.path_id = desc.index.path_id) then true
          else dhtOrdered desc.index.public_key rx.source_key s.publicKey
        else keyLt rx.source_key s.publicKey
    | none => keyLt rx.source_key s.publicKey

/-- `handle_setup(from, rx, next_hop)`.  The teardown sent on a root mismatch
does not end the handler in the source (there is no `return` after it), so
processing continues; deferred (spawned) teardowns of existing paths run
after the body, which holds the path locks. -/
def handleSetup (s : RouterState) (from_ : Port) (rx : SnekSetup)
    (nextHop : Port) (now : Nat) : Option (RouterState × List Output) :=
  match
    (if s.currentRoot ≠ rx.root then
        sendTeardownForRejectedPath s rx.source_key rx.path_id from_
      else some [] : Option (List Output))
  with
  | none => none
  | some out0 =>
    let index : SnekPathIndex := ⟨rx.source_key, rx.path_id⟩
    if acontains s.paths index then
      match sendTeardownForRejectedPath s rx.source_key rx.path_id from_ with
      | none => none
      | some outR =>
          let (s', outT) := sendTeardownForExistingPath s 0 rx.source_key rx.path_id
          some (s', out0 ++ outR ++ outT)
    else if rx.destination_key = s.publicKey then
      if !(handleSetupUpdate s rx now) then
        match sendTeardownForRejectedPath s rx.source_key rx.path_id from_ with
        | none => none
        | some outR => some (s, out0 ++ outR)
      else
        let entry : SnekPath :=
          { index := index, origin := rx.source_key, target := rx.destination_key
            source := from_, destination := 0, last_seen := now, root := rx.root
            active := true }
        let s1 := { s with paths := ainsert s.paths index entry
                           descending := some entry }
        let ack : SnekSetupAck :=
          { root := rx.root, destination_key := rx.source_key
            path_id := index.path_id }
        match s1.getPeerOnPort entry.source with
        | none => none
        | some ackPeer =>
            let (s2, outT) :=
              match s.descending with
              | some prev =>
                  sendTeardownForExistingPath s1 0 prev.index.public_key
                    prev.index.path_id
              | none => (s1, [])
            some (s2, out0 ++ [(Frame.snekSetupAck ack, ackPeer)] ++ outT)
    else
      match s.getPeerOnPort nextHop with
      | none => none
      | some nextPeer =>
          if nextPeer = s.publicKey then
            match sendTeardownForRejectedPath s rx.source_key rx.path_id from_ with
            | none => none
            | some outR => some (s, out0 ++ outR)
          else
            let entry : SnekPath :=
              { index := index, origin := rx.source_key
                target := rx.destination_key, source := from_
                destination := nextHop, last_seen := now, root := rx.root
                active := false }
            some ({ s with paths := ainsert s.paths index entry },
              out0 ++ [(Frame.snekSetup rx, nextPeer)])

/-- The scan of `handle_setup_ack` over the path table, threading the
ascending and candidate cells and collecting forwarded acks. -/
def handleSetupAckLoop (s : RouterState) (from_ : Port) (rx : SnekSetupAck) :
    List (SnekPathIndex × SnekPath) → Option SnekPath × Option SnekPath →
    Option (List (SnekPathIndex × SnekPath) × Option SnekPath × Option SnekPath × List Output)
  | [], (asc, cand) => some ([], asc, cand, [])
  | (k, e) :: rest, (asc, cand) =>
      if e.active || !decide (k.public_key = rx.destination_key)
          || !decide (k.path_id = rx.path_id) then
        (handleSetupAckLoop s from_ rx rest (asc, cand)).map
          (fun r => ((k, e) :: r.1, r.2.1, r.2.2.1, r.2.2.2))
      else if decide (from_ = e.destination) || decide (from_ = 0) then
        match
          (if e.source ≠ 0 then
              (s.getPeerOnPort e.source).map
                (fun p => [(Frame.snekSetupAck rx, p)])
            else some [] : Option (List Output))
        with
        | none => none
        | some outs1 =>
            let e' := { e with active := true }
            let next :=
              match cand with
              | some cp => if e' = cp then (some e', none) else (asc, cand)
              | none => (asc, cand)
            (handleSetupAckLoop s from_ rx rest next).map
              (fun r => ((k, e') :: r.1, r.2.1, r.2.2.1, outs1 ++ r.2.2.2))
      else
        (handleSetupAckLoop s from_ rx rest (asc, cand)).map
          (fun r => ((k, e) :: r.1, r.2.1, r.2.2.1, r.2.2.2))

/-- `handle_setup_ack(from, rx)`. -/
def handleSetupAck (s : RouterState) (from_ : Port) (rx : SnekSetupAck) :
    Option (RouterState × List Output) :=
  match handleSetupAckLoop s from_ rx s.paths (s.ascending, s.candidate) with
  | none => none
  | some (newPaths, asc, cand, outs) =>
      some ({ s with paths := newPaths, ascending := asc, candidate := cand }, outs)

/-- `handle_bootstrap(frame)`: answer with a bootstrap ACK when the roots
agree; the state is not changed. -/
def handleBootstrap (s : RouterState) (frame : SnekBootstrap) : List Output :=
  if s.currentRoot = frame.root then
    let ack : SnekBootstrapAck :=
      { destination_coordinates := frame.source
        destination_key := frame.destination_key
        source_coordinates := s.coordinates
        source_key := s.publicKey
        root := s.currentRoot
        path_id := frame.path_id }
    match nextTreeHop s ack.destination_coordinates s.publicKey with
    | some peer => [(Frame.snekBootstrapAck ack, peer)]
    | none => []
  else []

/-- The acceptance decision chain of `handle_bootstrap_ack`. -/
def handleBootstrapAckUpdate (s : RouterState) (ack : SnekBootstrapAck)
    (now : Nat) : Bool :=
  if ack.source_key = s.publicKey then false
  else if ack.root ≠ s.currentRoot then false
  else match s.ascending with
    | some asc =>
        if asc.validAt now s.currentRoot then
          if decide (asc.origin = ack.source_key)
              && !decide (ack.path_id = asc.index.path_id) then true
          else dhtOrdered s.publicKey ack.source_key asc.origin
        else keyLt s.publicKey ack.source_key
    | none => keyLt s.publicKey ack.source_key

/-- `handle_bootstrap_ack(ack)`: on acceptance, send a path setup, tear down
every other locally-originated path (deferred, as the spawned teardowns block
on the path lock held by the handler), install the new entry and remember the
activated copy as candidate. -/
def handleBootstrapAck (s : RouterState) (ack : SnekBootstrapAck) (now : Nat) :
    Option (RouterState × List Output) :=
  if !(handleBootstrapAckUpdate s ack now) then some (s, [])
  else
    let setup : SnekSetup :=
      { root := s.currentRoot, destination := ack.source_coordinates
        destination_key := ack.source_key, source_key := s.publicKey
        path_id := ack.path_id }
    match nextTreeHop s setup.destination s.publicKey with
    | none => some (s, [])
    | some nextPeer =>
        if s.publicKey = nextPeer then some (s, [])
        else
          match s.portOf nextPeer with
          | none => none
          | some destPort =>
              let index : SnekPathIndex := ⟨s.publicKey, ack.path_id⟩
              let entry : SnekPath :=
                { index := index, origin := ack.source_key
                  target := ack.source_key, source := 0
                  destination := destPort, last_seen := now, root := ack.root
                  active := false }
              let schedule :=
                (s.paths.filter (fun pr => decide (pr.2.source = 0)
                  && !decide (pr.1.public_key = ack.source_key))).map (·.1)
              let s1 := { s with paths := ainsert s.paths index entry
                                 candidate := some { entry with active := true } }
              let (s2, outT) := runTeardowns s1 schedule
              some (s2, [(Frame.snekSetup setup, nextPeer)] ++ outT)

/-- `become_root()`: set the parent to ourselves. -/
def becomeRoot (s : RouterState) : RouterState :=
  { s with parent := s.publicKey }

/-- `send_tree_announcement(to, announcement)`: append our signature over the
destination port and send.  The port of a known peer always resolves, so the
source's `unwrap` cannot fail here and a missing port simply yields no send. -/
def sendTreeAnnouncementTo (s : RouterState) (dest : PublicKey)
    (a : TreeAnnouncement) : Option Output :=
  (s.portOf dest).map
    (fun port => (Frame.treeAnnouncement (a.append_signature s.publicKey port), dest))

/-- `send_tree_announcements_to_all(announcement)`. -/
def sendTreeAnnouncementsToAll (s : RouterState) (a : TreeAnnouncement) :
    List Output :=
  s.peersOf.filterMap (fun peer => sendTreeAnnouncementTo s peer a)

/-- The part of `handle_tree_announcement` past the store of the validated
announcement (`s1` already holds the stored frame `f`). -/
def handleTreeAnnouncementStored (s1 : RouterState) (f : TreeAnnouncement)
    (from_ : PublicKey) : RouterState × List Output × Option Bool :=
  if !s1.reparentTimerExpired then (s1, [], none)
  else if from_ = s1.parent then
    if f.is_loop_of_child s1.publicKey then (becomeRoot s1, [], some true)
    else if keyLt f.root.public_key s1.currentAnnouncement.root.public_key then
      (becomeRoot s1, [], some true)
    else if keyLt s1.currentAnnouncement.root.public_key f.root.public_key then
      (s1, sendTreeAnnouncementsToAll s1 s1.currentAnnouncement, none)
    else if f.root.sequence_number > s1.currentAnnouncement.root.sequence_number then
      (s1, sendTreeAnnouncementsToAll s1 s1.currentAnnouncement, none)
    else (becomeRoot s1, [], some true)
  else
    if f.is_loop_of_child s1.publicKey then (s1, [], none)
    else if keyLt s1.currentAnnouncement.root.public_key f.root.public_key then
      let s2 := { s1 with parent := from_ }
      (s2, sendTreeAnnouncementsToAll s2 s2.currentAnnouncement, none)
    else if keyLt f.root.public_key s1.currentAnnouncement.root.public_key then
      (s1, (sendTreeAnnouncementTo s1 from_ s1.currentAnnouncement).toList, none)
    else (s1, [], some false)

/-- `handle_tree_announcement` after the receive stamps (`s0` has the bumped
ordering counter, `f` the stamped frame): validity and replay checks, then
the store. -/
def handleTreeAnnouncementCore (s0 : RouterState) (f : TreeAnnouncement)
    (from_ : PublicKey) : RouterState × List Output × Option Bool :=
  if !(f.is_clean from_) then (s0, [], none)
  else if (match s0.treeAnnouncementOf from_ with
            | some prev => f.has_same_root_key prev && f.replayed_old_sequence prev
            | none => false) then (s0, [], none)
  else
    handleTreeAnnouncementStored
      { s0 with announcements := ainsert s0.announcements from_ f } f from_

/-- `handle_tree_announcement(frame, from)`: stamp the receive time and the
next ordering number, then validate, store and act.  The third component is
the deferred `reparent(wait)` request that the source spawns on a fresh task
(`some wait`), not executed inside the handler. -/
def handleTreeAnnouncement (s : RouterState) (frame : TreeAnnouncement)
    (from_ : PublicKey) (now : Nat) : RouterState × List Output × Option Bool :=
  handleTreeAnnouncementCore { s with ordering := s.ordering + 1 }
    { frame with receive_time := now, receive_order := s.ordering + 1 } from_

/-- One iteration of the candidate loop of `parent_selection`; the
accumulator is `(best_root, best_peer, best_order)`. -/
def parentSelectionStep (s0 : RouterState) (now : Nat)
    (acc : Root × Option PublicKey × SequenceNumber) (peer : PublicKey) :
    Root × Option PublicKey × SequenceNumber :=
  match s0.treeAnnouncementOf peer with
  | none => acc
  | some a =>
      if now - a.receive_time > ANNOUNCEMENT_TIMEOUT then acc
      else if a.is_loop_of_child s0.publicKey then acc
      else
        let acc := if rootLt acc.1 a.root then (a.root, some peer, a.receive_order) else acc
        if rootLt a.root acc.1 then acc
        else if a.receive_order < acc.2.2 then (a.root, some peer, a.receive_order)
        else acc

/-- The candidate loop of `parent_selection` over all peers. -/
def parentSelectionFold (s0 : RouterState) (now : Nat) :
    Root × Option PublicKey × SequenceNumber :=
  s0.peersOf.foldl (parentSelectionStep s0 now) (s0.currentRoot, none, U64MAX)

/-- The opening of `parent_selection`: become root when our own key is
stronger than the current root's. -/
def selfPromote (s : RouterState) : RouterState :=
  if keyLt s.currentRoot.public_key s.publicKey then becomeRoot s else s

/-- `parent_selection()`: possibly self-promote, elect the best candidate,
and return whether the parent changed (flooding our announcement when it
did). -/
def parentSelection (s : RouterState) (now : Nat) :
    RouterState × List Output × Bool :=
  let s0 := selfPromote s
  match (parentSelectionFold s0 now).2.1 with
  | some bestPeer =>
      if bestPeer = s0.parent then (s0, [], false)
      else
        let s1 := { s0 with parent := bestPeer }
        (s1, sendTreeAnnouncementsToAll s1 s1.currentAnnouncement, true)
  | none => (becomeRoot s0, [], false)

/-- The sending tail of `bootstrap_now`: build the bootstrap frame (with the
random path id passed in) and dispatch it via `next_snek_hop`. -/
def bootstrapNowSend (s : RouterState) (now rnd : Nat) : Option (List Output) :=
  let frame : SnekBootstrap :=
    { root := s.currentRoot, destination_key := s.publicKey
      source := s.coordinates, path_id := rnd }
  match nextSnekHop s now frame.destination_key true false with
  | none => none
  | some none => some []
  | some (some peer) => some [(Frame.snekBootstrap frame, peer)]

/-- `bootstrap_now()`: send a bootstrap unless we are root or a matching
ascending path already exists.  The state is not changed. -/
def bootstrapNow (s : RouterState) (now rnd : Nat) : Option (List Output) :=
  if s.parent = s.publicKey then some []
  else
    match s.ascending with
    | some asc =>
        if asc.root = s.currentAnnouncement.root then some []
        else bootstrapNowSend s now rnd
    | none => bootstrapNowSend s now rnd

/-- `maintain_snek()`: tear down expired or never-activated paths (deferred,
spawned in the source) and bootstrap when needed. -/
def maintainSnek (s : RouterState) (now rnd : Nat) :
    Option (RouterState × List Output) :=
  let rootAnnouncement := s.currentAnnouncement
  let canBootstrap := !decide (s.parent = s.publicKey)
    && !decide (rootAnnouncement.root.public_key = s.publicKey)
  let willBootstrap :=
    match s.ascending with
    | some asc =>
        if asc.root ≠ rootAnnouncement.root then canBootstrap
        else if !(asc.validAt now s.currentRoot) then canBootstrap
        else false
    | none => canBootstrap
  let sched1 :=
    match s.ascending with
    | some asc => if !(asc.validAt now s.currentRoot) then [asc.index] else []
    | none => []
  let sched2 :=
    match s.descending with
    | some desc => if !(desc.validAt now s.currentRoot) then [desc.index] else []
    | none => []
  let sched3 :=
    (s.paths.filter (fun pr => !pr.2.active && decide (now - pr.2.last_seen > 5))).map (·.1)
  let (s', outT) := runTeardowns s (sched1 ++ sched2 ++ sched3)
  if willBootstrap then
    match bootstrapNow s' now rnd with
    | none => none
    | some outB => some (s', outT ++ outB)
  else some (s', outT)

/-- `handle_frame(frame, from)`: the dispatcher.  `none` models a panic of
one of the source's `unwrap`s; the third component of a successful result is
a deferred reparent request from tree-announcement handling. -/
def handleFrame (s : RouterState) (frame : Frame) (from_ : PublicKey)
    (now : Nat) : Option (RouterState × List Output × Option Bool) :=
  match frame with
  | Frame.treeRouted p =>
      match nextTreeHop s p.destination_coordinates from_ with
      | some peer => some (s, [(Frame.treeRouted p, peer)], none)
      | none => some (s, [], none)
  | Frame.snekRouted p =>
      match nextSnekHop s now p.destination_key false true with
      | none => none
      | some (some peer) => some (s, [(Frame.snekRouted p, peer)], none)
      | some none => some (s, [], none)
  | Frame.treeAnnouncement a =>
      some (handleTreeAnnouncement s a from_ now)
  | Frame.snekBootstrap b =>
      match nextSnekHop s now b.destination_key true false with
      | none => none
      | some none => none
      | some (some nextHop) =>
          if nextHop = s.publicKey then some (s, handleBootstrap s b, none)
          else some (s, [(Frame.snekBootstrap b, nextHop)], none)
  | Frame.snekBootstrapAck a =>
      match nextTreeHop s a.destination_coordinates from_ with
      | some nextHop =>
          if nextHop = s.publicKey then
            match handleBootstrapAck s a now with
            | none => none
            | some (s', outs) => some (s', outs, none)
          else some (s, [(Frame.snekBootstrapAck a, nextHop)], none)
      | none => some (s, [], none)
  | Frame.snekSetup st =>
      match s.portOf from_ with
      | none => none
      | some fromPort =>
          match nextTreeHop s st.destination from_ with
          | none => none
          | some nextHop =>
              match s.portOf nextHop with
              | none => none
              | some nextHopPort =>
                  match handleSetup s fromPort st nextHopPort now with
                  | none => none
                  | some (s', outs) => some (s', outs, none)
  | Frame.snekSetupAck a =>
      match s.portOf from_ with
      | none => none
      | some port =>
          match handleSetupAck s port a with
          | none => none
          | some (s', outs) => some (s', outs, none)
  | Frame.snekTeardown t =>
      match s.portOf from_ with
      | none => none
      | some port => some ((handleTeardown s port t).1, [], none)

/-! Concrete keys and states used by the scenario claims. -/

/-- The 32-byte constant key `[1; 32]`. -/
def pkOne : PublicKey := List.replicate 32 1

/-- The 32-byte constant key `[2; 32]`. -/
def pkTwo : PublicKey := List.replicate 32 2

/-- The 32-byte constant key `[3; 32]`. -/
def pkThree : PublicKey := List.replicate 32 3

/-- The 32-byte constant key `[9; 32]`. -/
def pkNine : PublicKey := List.replicate 32 9

/-- A two-signature announcement rooted at `nodeKey` as stored by the root
after its peer echoed the first announcement back (scenario 5 of the spec). -/
def twoSigAnnouncement (nodeKey peerKey : PublicKey) : TreeAnnouncement :=
  { root := { public_key := nodeKey, sequence_number := 0 }
    signatures := [⟨nodeKey, 1⟩, ⟨peerKey, 1⟩]
    receive_time := 0, receive_order := 0 }

/-- Root node `nodeKey` with a single peer `peerKey` on port 1 and the
two-signature announcement stored for that peer. -/
def rootWithPeer (nodeKey peerKey : PublicKey) : RouterState :=
  { publicKey := nodeKey, parent := nodeKey
    announcements := [(peerKey, twoSigAnnouncement nodeKey peerKey)]
    sequence := 0, ordering := 0, reparentTimerExpired := true
    ports := [(1, some peerKey)]
    ascending := none, descending := none, paths := [], candidate := none }

/-- The terminal `SnekSetup` of scenario 5, addressed to `nodeKey` from
`peerKey`. -/
def terminalSetup (nodeKey peerKey : PublicKey) : SnekSetup :=
  { root := { public_key := nodeKey, sequence_number := 0 }
    destination := [], destination_key := nodeKey, source_key := peerKey
    path_id := 0 }

/-- Does an output list contain a `SnekSetupAck`? -/
def hasSetupAck (outs : List Output) : Bool :=
  outs.any (fun o => match o.1 with
    | Frame.snekSetupAck _ => true
    | _ => false)

/-- Does an output list contain a `SnekBootstrap`? -/
def hasBootstrap (outs : List Output) : Bool :=
  outs.any (fun o => match o.1 with
    | Frame.snekBootstrap _ => true
    | _ => false)

/-- State for the C1 failing input: node `[2;32]` is its own root, peers
`[1;32]` on port 1 and `[3;32]` on port 2. -/
def c1State : RouterState :=
  { publicKey := pkTwo, parent := pkTwo, announcements := []
    sequence := 0, ordering := 0, reparentTimerExpired := true
    ports := [(1, some pkOne), (2, some pkThree)]
    ascending := none, descending := none, paths := [], candidate := none }

/-- A non-terminal setup whose root `{[9;32], 0}` differs from `c1State`'s
current root `{[2;32], 0}`. -/
def c1Setup : SnekSetup :=
  { root := { public_key := pkNine, sequence_number := 0 }
    destination := [], destination_key := pkThree, source_key := pkOne
    path_id := 7 }

/-- State for the C8 counterexample: node `[1;32]` has parent `[2;32]` but no
stored announcement for it, so the synthesized current root is its own key. -/
def c8State : RouterState :=
  { publicKey := pkOne, parent := pkTwo, announcements := []
    sequence := 0, ordering := 0, reparentTimerExpired := true
    ports := [(1, some pkTwo)]
    ascending := none, descending := none, paths := [], candidate := none }

/-- A root-only state with a given key and no peers. -/
def lonelyState (k : PublicKey) : RouterState :=
  { publicKey := k, parent := k, announcements := []
    sequence := 0, ordering := 0, reparentTimerExpired := true
    ports := [], ascending := none, descending := none, paths := []
    candidate := none }

/-! Counting helpers for the path-table invariant. -/

/-- Number of installed path entries whose `source` port is 0. -/
def sourceZeroCount (s : RouterState) : Nat :=
  s.paths.countP (fun pr => decide (pr.2.source = 0))

/-- Number of installed path entries whose `destination` port is 0. -/
def destZeroCount (s : RouterState) : Nat :=
  s.paths.countP (fun pr => decide (pr.2.destination = 0))

/-- Well-formed port table: no entry uses the reserved port 0 (the source
hands out ports starting at 1; 0 stands for the local node). -/
def PortsWF (s : RouterState) : Prop := ∀ pr ∈ s.ports, pr.1 ≠ (0 : Port)

/-- The path table has unique indices (a `HashMap` guarantee). -/
def PathsNodup (s : RouterState) : Prop := (s.paths.map Prod.fst).Nodup

/-- Every locally-originated entry (source port 0) is indexed by our own
key. -/
def SrcSelf (s : RouterState) : Prop :=
  ∀ pr ∈ s.paths, pr.2.source = 0 → pr.1.public_key = s.publicKey

/-- Every terminal entry (destination port 0) is the one the descending cell
points at. -/
def DstDesc (s : RouterState) : Prop :=
  ∀ pr ∈ s.paths, pr.2.destination = 0 →
    ∃ d, s.descending = some d ∧ pr.1 = d.index

/-- The inductive invariant of the path table. -/
def PathInv (s : RouterState) : Prop :=
  PortsWF s ∧ PathsNodup s ∧ sourceZeroCount s ≤ 1 ∧ SrcSelf s ∧ DstDesc s

/-- The states a router can reach: from a fresh `Router::new` state through
the path-manipulating handlers.  `drift` over-approximates everything the
tree plane does (announcements, parent selection, port churn): it may change
any field except the path table, the descending cell and our key, as long as
ports stay well formed.  Handler steps take the frame from a remote peer
(`from_ ≠ publicKey`) through an assigned port, and include the deferred
teardowns the handler spawns. -/
inductive Reachable : RouterState → Prop where
  | init (s : RouterState) :
      s.paths = [] → s.descending = none → PortsWF s → Reachable s
  | drift (s s' : RouterState) : Reachable s →
      s'.paths = s.paths → s'.descending = s.descending →
      s'.publicKey = s.publicKey → PortsWF s' → Reachable s'
  | setup (s : RouterState) (q : PublicKey) (fp : Port) (rx : SnekSetup)
      (nh : Port) (now : Nat) (s' : RouterState) (out : List Output) :
      Reachable s → q ≠ s.publicKey → s.portOf q = some fp →
      handleSetup s fp rx nh now = some (s', out) → Reachable s'
  | bootstrapAck (s : RouterState) (ack : SnekBootstrapAck) (now : Nat)
      (s' : RouterState) (out : List Output) :
      Reachable s → handleBootstrapAck s ack now = some (s', out) →
      Reachable s'
  | teardown (s : RouterState) (fp : Port) (k : PublicKey)
      (pid : SnekPathId) :
      Reachable s → Reachable (teardownPath s fp k pid).1
  | setupAck (s : RouterState) (q : PublicKey) (fp : Port)
      (rx : SnekSetupAck) (s' : RouterState) (out : List Output) :
      Reachable s → q ≠ s.publicKey → s.portOf q = some fp →
      handleSetupAck s fp rx = some (s', out) → Reachable s'

/-! Theorems. -/

/-- C9: for every from-port, key and path id matched by no stored path —
ascending, descending, or general table entry — `teardown_path` returns the
empty next-hop list and leaves the ascending path, the descending path and
the path table unchanged (indeed the whole state). -/
theorem c9_teardown_noop (s : RouterState) (fp : Port) (k : PublicKey)
    (pid : SnekPathId)
    (hasc : ∀ a, s.ascending = some a →
      ¬(a.index.public_key = k ∧ a.index.path_id = pid))
    (hdesc : ∀ d, s.descending = some d →
      ¬(d.index.public_key = k ∧ d.index.path_id = pid))
    (htab : ∀ pr ∈ s.paths, ¬(pr.1.public_key = k ∧ pr.1.path_id = pid)) :
    teardownPath s fp k pid = (s, []) := by
  have hfind : s.paths.find?
      (fun pr => decide (pr.1.public_key = k) && decide (pr.1.path_id = pid)) = none := by
    rw [List.find?_eq_none]
    intro pr hpr
    have := htab pr hpr
    simp only [Bool.and_eq_true, decide_eq_true_eq]
    tauto
  have htable : teardownPath.teardownPathTable s fp k pid = (s, []) := by
    unfold teardownPath.teardownPathTable
    rw [hfind]
  have hdescending : teardownPath.teardownPathDescending s fp k pid = (s, []) := by
    unfold teardownPath.teardownPathDescending
    cases hd : s.descending with
    | none => simpa [hd] using htable
    | some d =>
        have := hdesc d hd
        simp only [hd]
        rw [if_neg this]
        exact htable
  unfold teardownPath
  cases ha : s.ascending with
  | none => simpa [ha] using hdescending
  | some a =>
      have := hasc a ha
      simp only [ha]
      rw [if_neg this]
      exact hdescending

/-- Witness for C9 at a concrete state with no stored paths. -/
theorem c9_teardown_noop_witness :
    teardownPath (lonelyState pkOne) 1 pkTwo 0 = (lonelyState pkOne, []) :=
  c9_teardown_noop (lonelyState pkOne) 1 pkTwo 0
    (by intro a ha; simp [lonelyState] at ha)
    (by intro d hd; simp [lonelyState] at hd)
    (by intro pr hpr; simp [lonelyState] at hpr)

/-- Folding a step that preserves a property preserves it. -/
theorem foldl_preserve {α β : Type} (P : β → Prop) (f : β → α → β)
    (h : ∀ b a, P b → P (f b a)) : ∀ (l : List α) (b : β), P b → P (l.foldl f b)
  | [], _, hb => hb
  | a :: l, b, hb => foldl_preserve P f h l (f b a) (h b a hb)

/-- The parent phase of `next_snek_hop` never clears the best peer. -/
theorem snekHopParent_isSome (s : RouterState) (dk : PublicKey) (b : Bool)
    (acc : SnekAcc) (hs : acc.2.isSome) : (snekHopParent s dk b acc).2.isSome := by
  unfold snekHopParent
  dsimp only
  split <;> split <;> simp_all

/-- The signer phase of `next_snek_hop` never clears the best peer. -/
theorem snekHopSigner_isSome (dk : PublicKey) (b : Bool) (via : PublicKey)
    (acc : SnekAcc) (signer : PublicKey) (hs : acc.2.isSome) :
    (snekHopSigner dk b via acc signer).2.isSome := by
  unfold snekHopSigner
  dsimp only
  split <;> split <;> simp_all

/-- The direct-peer phase of `next_snek_hop` never clears the best peer. -/
theorem snekHopDirect_isSome (acc : SnekAcc) (peer : PublicKey)
    (hs : acc.2.isSome) : (snekHopDirect acc peer).2.isSome := by
  unfold snekHopDirect
  split <;> simp_all

/-- One DHT step of `next_snek_hop` never clears the best peer. -/
theorem snekHopPath_isSome (s : RouterState) (now : Nat) (dk : PublicKey)
    (b : Bool) (acc acc' : SnekAcc) (pr : SnekPathIndex × SnekPath)
    (h : snekHopPath s now dk b acc pr = some acc') (hs : acc.2.isSome) :
    acc'.2.isSome := by
  unfold snekHopPath at h
  split at h
  · cases h; exact hs
  · split at h
    · cases h; exact hs
    · split at h
      · exact absurd h (by simp)
      · rename_i acc1 hmatch
        split at h
        · rw [Option.map_eq_some'] at h
          obtain ⟨p, _, hp⟩ := h
          simp [← hp]
        · cases h
          split at hmatch
          · rw [Option.map_eq_some'] at hmatch
            obtain ⟨p, _, hp⟩ := hmatch
            simp [← hp]
          · cases hmatch; exact hs

/-- The DHT phase of `next_snek_hop` never clears the best peer. -/
theorem snekHopPaths_isSome (s : RouterState) (now : Nat) (dk : PublicKey)
    (b : Bool) : ∀ (l : List (SnekPathIndex × SnekPath)) (acc acc' : SnekAcc),
    snekHopPaths s now dk b l acc = some acc' → acc.2.isSome → acc'.2.isSome
  | [], acc, acc', h, hs => by
      unfold snekHopPaths at h; cases h; exact hs
  | pr :: rest, acc, acc', h, hs => by
      unfold snekHopPaths at h
      cases hstep : snekHopPath s now dk b acc pr with
      | none => rw [hstep] at h; cases h
      | some acc1 =>
          rw [hstep] at h
          exact snekHopPaths_isSome s now dk b rest acc1 acc'
            h (snekHopPath_isSome s now dk b acc acc1 pr hstep hs)

/-- Core of C10: with `traffic = false` the best-peer accumulator starts at
self and is only ever replaced, so whenever `next_snek_hop` completes it
returns a peer. -/
theorem nextSnekHop_isSome_of_not_traffic (s : RouterState) (now : Nat)
    (dk : PublicKey) (b : Bool) (r : Option PublicKey)
    (h : nextSnekHop s now dk b false = some r) : r.isSome := by
  unfold nextSnekHop at h
  split at h
  · cases h; simp
  · dsimp only at h
    simp only [Bool.false_eq_true, if_false] at h
    set acc0 : SnekAcc := (s.publicKey, some s.publicKey) with hacc0
    have h0 : acc0.2.isSome := by simp [hacc0]
    set acc1 := (if s.parent ≠ s.publicKey then
        s.currentAnnouncement.signatures.foldl
          (fun acc sig =>
            snekHopSigner dk b s.parent acc sig.signing_public_key)
          (snekHopParent s dk b acc0)
      else acc0) with hacc1
    have h1 : acc1.2.isSome := by
      rw [hacc1]
      split
      · exact foldl_preserve (fun a : SnekAcc => a.2.isSome) _
          (fun acc sig hs => snekHopSigner_isSome dk b s.parent acc
            sig.signing_public_key hs) _ _
          (snekHopParent_isSome s dk b acc0 h0)
      · exact h0
    set acc2 := s.announcements.foldl
      (fun acc pa =>
        pa.2.signatures.foldl
          (fun acc sig => snekHopSigner dk b pa.1 acc sig.signing_public_key)
          acc)
      acc1 with hacc2
    have h2 : acc2.2.isSome := by
      rw [hacc2]
      refine foldl_preserve (fun a : SnekAcc => a.2.isSome) _ ?_ _ _ h1
      intro acc pa hs
      exact foldl_preserve (fun a : SnekAcc => a.2.isSome) _
        (fun acc sig hs => snekHopSigner_isSome dk b pa.1 acc
          sig.signing_public_key hs) _ _ hs
    set acc3 := s.peersOf.foldl snekHopDirect acc2 with hacc3
    have h3 : acc3.2.isSome := by
      rw [hacc3]
      exact foldl_preserve (fun a : SnekAcc => a.2.isSome) _
        (fun acc p hs => snekHopDirect_isSome acc p hs) _ _ h2
    cases hps : snekHopPaths s now dk b s.paths acc3 with
    | none => rw [hps] at h; cases h
    | some accF =>
        rw [hps] at h
        cases h
        exact snekHopPaths_isSome s now dk b s.paths acc3 accF hps h3

/-- C10: `next_snek_hop` invoked with `traffic = false` never returns `None`:
the best-peer candidate is initialised to the node's own key and only ever
replaced, so `SnekBootstrap` dispatch always finds a next hop (possibly
self). -/
theorem c10_next_snek_hop_always_some (s : RouterState) (now : Nat)
    (dk : PublicKey) (b : Bool) (r : Option PublicKey)
    (h : nextSnekHop s now dk b false = some r) : r.isSome :=
  nextSnekHop_isSome_of_not_traffic s now dk b r h

/-- Witness for C10 at a concrete state. -/
theorem c10_next_snek_hop_always_some_witness :
    nextSnekHop (lonelyState pkOne) 0 pkTwo true false = some (some pkOne) ∧
    (some pkOne : Option PublicKey).isSome :=
  ⟨by decide,
    c10_next_snek_hop_always_some (lonelyState pkOne) 0 pkTwo true
      (some pkOne) (by decide)⟩

/-- Does an output list contain a forwarded `SnekSetup`? -/
def hasSetupFrame (outs : List Output) : Bool :=
  outs.any (fun o => match o.1 with
    | Frame.snekSetup _ => true
    | _ => false)

/-- Does an output list contain a `SnekTeardown`? -/
def hasTeardownFrame (outs : List Output) : Bool :=
  outs.any (fun o => match o.1 with
    | Frame.snekTeardown _ => true
    | _ => false)

/-- C1 (code behaviour at the failing input): a `SnekSetup` whose root
differs from the current root is answered with a rejected-path teardown, yet
`handle_setup` does not return: at an intermediate node it still forwards the
setup and installs a path entry for it. -/
theorem c1_root_mismatch_still_processes :
    c1State.currentRoot ≠ c1Setup.root ∧
    (handleSetup c1State 1 c1Setup 2 5).map
      (fun r => (acontains r.1.paths ⟨c1Setup.source_key, c1Setup.path_id⟩,
        hasSetupFrame r.2, hasTeardownFrame r.2)) =
      some (true, true, true) := by decide

/-- C6 counterexample: with the literal keys of the claim — node `[1;32]`,
peer `[2;32]` — the setup's source key `[2;32]` is not below the node's key,
so the terminal branch rejects it: no path entry, no descending path, no
`SnekSetupAck`. -/
theorem c6_counterexample_literal_keys :
    keyLt (terminalSetup pkOne pkTwo).source_key
      (rootWithPeer pkOne pkTwo).publicKey = false ∧
    (handleFrame (rootWithPeer pkOne pkTwo)
        (Frame.snekSetup (terminalSetup pkOne pkTwo)) pkTwo 5).map
      (fun r => (r.1.paths, r.1.descending, hasSetupAck r.2.1)) =
      some ([], none, false) := by decide

/-- The path entry installed in the amended C6 scenario. -/
def c6Entry : SnekPath :=
  { index := ⟨pkOne, 0⟩, origin := pkOne, target := pkTwo, source := 1
    destination := 0, last_seen := 5
    root := { public_key := pkTwo, sequence_number := 0 }, active := true }

/-- C6 amended: with the node holding the higher key `[2;32]` and the peer
the lower key `[1;32]`, the terminal setup is accepted: the node replies with
`SnekSetupAck { root = ([2;32],0), destination_key = [1;32], path_id = 0 }`,
installs the entry `{ index = ([1;32],0), origin = [1;32], target = [2;32],
source_port = 1, destination_port = 0, active = true }` and sets the
descending path to it. -/
theorem c6_amended_terminal_setup :
    handleFrame (rootWithPeer pkTwo pkOne)
        (Frame.snekSetup (terminalSetup pkTwo pkOne)) pkOne 5 =
      some ({ rootWithPeer pkTwo pkOne with
                paths := [(⟨pkOne, 0⟩, c6Entry)], descending := some c6Entry },
        [(Frame.snekSetupAck
            { root := { public_key := pkTwo, sequence_number := 0 }
              destination_key := pkOne, path_id := 0 }, pkOne)], none) := by
  decide

/-- C8 counterexample: in a state where the parent differs from the node but
the synthesized current root key equals the node's own key, `bootstrap_now`
still emits a `SnekBootstrap` (it only checks the parent). -/
theorem c8_counterexample_bootstrap_while_root :
    c8State.parent ≠ c8State.publicKey ∧
    c8State.currentRoot.public_key = c8State.publicKey ∧
    (bootstrapNow c8State 0 42).map hasBootstrap = some true := by decide

/-! Lemmas about announcement handling, shared by the replay claims. -/

/-- Stamping the receive fields leaves the signature chain alone. -/
theorem is_clean_stamp (a : TreeAnnouncement) (t : Nat) (o : SequenceNumber)
    (p : PublicKey) :
    ({ a with receive_time := t, receive_order := o } : TreeAnnouncement).is_clean p
      = a.is_clean p := rfl

/-- Stamping the receive fields leaves the root alone. -/
theorem root_stamp (a : TreeAnnouncement) (t : Nat) (o : SequenceNumber) :
    ({ a with receive_time := t, receive_order := o } : TreeAnnouncement).root
      = a.root := rfl

/-- Looking up the key just inserted yields the inserted value. -/
theorem alookup_ainsert_self {α β : Type} [DecidableEq α] :
    ∀ (l : List (α × β)) (k : α) (v : β), alookup (ainsert l k v) k = some v := by
  intro l k v
  unfold ainsert
  by_cases hc : acontains l k = true
  · rw [if_pos hc]
    induction l with
    | nil => simp [acontains] at hc
    | cons hd tl ih =>
        by_cases hhd : hd.1 = k
        · simp [alookup, List.find?, hhd]
        · have htl : acontains tl k = true := by
            simpa [acontains, hhd] using hc
          simpa [alookup, List.find?, hhd] using ih htl
  · rw [if_neg hc]
    induction l with
    | nil => simp [alookup, List.find?]
    | cons hd tl ih =>
        have hhd : ¬ hd.1 = k := by
          intro he
          exact hc (by simp [acontains, he])
        have htl : ¬ acontains tl k = true := by
          intro ht
          exact hc (by simp [acontains] at ht ⊢; exact Or.inr ht)
        simpa [alookup, List.find?, hhd] using ih htl

/-- The post-store part of announcement handling never touches the stored
announcements. -/
theorem handleTreeAnnouncementStored_announcements (s1 : RouterState)
    (f : TreeAnnouncement) (from_ : PublicKey) :
    (handleTreeAnnouncementStored s1 f from_).1.announcements
      = s1.announcements := by
  unfold handleTreeAnnouncementStored becomeRoot
  repeat' split
  all_goals rfl

/-- A replayed announcement — same root key, sequence not strictly greater
than the stored one — is dropped before the store: only the ordering counter
moves, and nothing is sent or scheduled. -/
theorem replay_drop (s : RouterState) (a : TreeAnnouncement)
    (from_ : PublicKey) (now : Nat) (prev : TreeAnnouncement)
    (hprev : s.treeAnnouncementOf from_ = some prev)
    (hkey : a.root.public_key = prev.root.public_key)
    (hseq : a.root.sequence_number ≤ prev.root.sequence_number) :
    handleTreeAnnouncement s a from_ now =
      ({ s with ordering := s.ordering + 1 }, [], none) := by
  have hprev' : ({ s with ordering := s.ordering + 1 } : RouterState).treeAnnouncementOf from_
      = some prev := hprev
  unfold handleTreeAnnouncement handleTreeAnnouncementCore
  split
  · rfl
  · rw [hprev']
    have hgt : ¬ a.root.sequence_number > prev.root.sequence_number :=
      Nat.not_lt.mpr hseq
    simp [TreeAnnouncement.has_same_root_key, TreeAnnouncement.replayed_old_sequence,
      root_stamp, hkey, hgt]

/-- Stored announcement for the C4/C5 scenario. -/
def c4Stored : TreeAnnouncement :=
  { root := { public_key := pkTwo, sequence_number := 5 }
    signatures := [⟨pkTwo, 1⟩], receive_time := 0, receive_order := 1 }

/-- State for the C4 scenario: node `[1;32]` with peer `[2;32]` whose
announcement is stored. -/
def c4State : RouterState :=
  { publicKey := pkOne, parent := pkOne, announcements := [(pkTwo, c4Stored)]
    sequence := 0, ordering := 1, reparentTimerExpired := true
    ports := [(1, some pkTwo)]
    ascending := none, descending := none, paths := [], candidate := none }

/-- A replay of `c4Stored`: same root key, same sequence number. -/
def c4Replay : TreeAnnouncement :=
  { root := { public_key := pkTwo, sequence_number := 5 }
    signatures := [⟨pkTwo, 1⟩], receive_time := 9, receive_order := 9 }

/-- C4 counterexample: a replayed announcement is dropped, but it is not true
that it "causes no state change": the receive-ordering counter is incremented
before the replay check, so the state after handling differs from the state
before. -/
theorem c4_counterexample_ordering_changes :
    c4State.treeAnnouncementOf pkTwo = some c4Stored ∧
    c4Replay.root.public_key = c4Stored.root.public_key ∧
    c4Replay.root.sequence_number ≤ c4Stored.root.sequence_number ∧
    (handleTreeAnnouncement c4State c4Replay pkTwo 9).1 ≠ c4State := by decide

/-- C4 amended: a tree announcement from a peer with a stored announcement of
the same root key and a root sequence number not strictly greater is dropped
as a replay: it is not stored, no frame is sent, no reparent is scheduled,
and the only state change is the increment of the receive-ordering counter. -/
theorem c4_replay_announcement_dropped (s : RouterState) (a : TreeAnnouncement)
    (from_ : PublicKey) (now : Nat) (prev : TreeAnnouncement)
    (hprev : s.treeAnnouncementOf from_ = some prev)
    (hkey : a.root.public_key = prev.root.public_key)
    (hseq : a.root.sequence_number ≤ prev.root.sequence_number) :
    handleTreeAnnouncement s a from_ now =
      ({ s with ordering := s.ordering + 1 }, [], none) :=
  replay_drop s a from_ now prev hprev hkey hseq

/-- Witness for C4's amended theorem at the concrete replay scenario. -/
theorem c4_replay_announcement_dropped_witness :
    c4State.treeAnnouncementOf pkTwo = some c4Stored ∧
    handleTreeAnnouncement c4State c4Replay pkTwo 9 =
      ({ c4State with ordering := c4State.ordering + 1 }, [], none) :=
  ⟨by decide,
    c4_replay_announcement_dropped c4State c4Replay pkTwo 9 c4Stored
      (by decide) (by decide) (by decide)⟩

/-- Unfolding helper: announcement lookup is an association-list lookup. -/
theorem treeAnnouncementOf_eq (s : RouterState) (p : PublicKey) :
    s.treeAnnouncementOf p = alookup s.announcements p := rfl

/-- After a clean announcement is applied, the announcement stored for the
sender has the same root key and a root sequence at least the frame's own. -/
theorem hta_lookup_after (s : RouterState) (a : TreeAnnouncement)
    (from_ : PublicKey) (now : Nat) (hc : a.is_clean from_ = true) :
    ∃ prev, (handleTreeAnnouncement s a from_ now).1.treeAnnouncementOf from_
        = some prev ∧
      a.root.public_key = prev.root.public_key ∧
      a.root.sequence_number ≤ prev.root.sequence_number := by
  unfold handleTreeAnnouncement handleTreeAnnouncementCore
  rw [if_neg (by simp [is_clean_stamp, hc])]
  split
  · rename_i hrep
    cases hm : ({ s with ordering := s.ordering + 1 } : RouterState).treeAnnouncementOf
        from_ with
    | none => rw [hm] at hrep; simp at hrep
    | some prev =>
        rw [hm] at hrep
        simp only [TreeAnnouncement.has_same_root_key,
          TreeAnnouncement.replayed_old_sequence, root_stamp, Bool.and_eq_true,
          decide_eq_true_eq, Bool.not_eq_true', decide_eq_false_iff_not] at hrep
        exact ⟨prev, rfl, hrep.1, Nat.le_of_not_lt hrep.2⟩
  · refine ⟨{ a with receive_time := now, receive_order := s.ordering + 1 }, ?_, rfl, le_refl _⟩
    rw [treeAnnouncementOf_eq, handleTreeAnnouncementStored_announcements]
    exact alookup_ainsert_self _ from_ _

/-- C5: applying the same announcement a second time is a no-op after the
first: the second application leaves the parent and the stored announcements
unchanged and produces no outbound frame and no deferred reparent. -/
theorem c5_same_announcement_twice_noop (s : RouterState)
    (a : TreeAnnouncement) (from_ : PublicKey) (n1 n2 : Nat) :
    (handleTreeAnnouncement (handleTreeAnnouncement s a from_ n1).1 a from_ n2).1.parent
      = (handleTreeAnnouncement s a from_ n1).1.parent ∧
    (handleTreeAnnouncement (handleTreeAnnouncement s a from_ n1).1 a from_ n2).1.announcements
      = (handleTreeAnnouncement s a from_ n1).1.announcements ∧
    (handleTreeAnnouncement (handleTreeAnnouncement s a from_ n1).1 a from_ n2).2.1 = [] ∧
    (handleTreeAnnouncement (handleTreeAnnouncement s a from_ n1).1 a from_ n2).2.2 = none := by
  set s1 := (handleTreeAnnouncement s a from_ n1).1 with hs1
  by_cases hc : a.is_clean from_ = true
  · obtain ⟨prev, hm, hkey, hseq⟩ := hta_lookup_after s a from_ n1 hc
    rw [← hs1] at hm
    rw [replay_drop s1 a from_ n2 prev hm hkey hseq]
    exact ⟨rfl, rfl, rfl, rfl⟩
  · have hstep : handleTreeAnnouncement s1 a from_ n2
        = ({ s1 with ordering := s1.ordering + 1 }, [], none) := by
      unfold handleTreeAnnouncement handleTreeAnnouncementCore
      rw [if_pos (by simp [is_clean_stamp, hc])]
    rw [hstep]
    exact ⟨rfl, rfl, rfl, rfl⟩

/-- Lists of teardown sends contain no bootstrap. -/
theorem hasBootstrap_eq_false (outs : List Output)
    (h : ∀ o ∈ outs, ∃ t p, o = (Frame.snekTeardown t, p)) :
    hasBootstrap outs = false := by
  rw [hasBootstrap, List.any_eq_false]
  intro o ho
  obtain ⟨t, p, rfl⟩ := h o ho
  simp

/-- Every send of `send_teardown_for_existing_path` is a teardown frame. -/
theorem sendTeardownForExistingPath_frames (s : RouterState) (fp : Port)
    (k : PublicKey) (pid : SnekPathId) :
    ∀ o ∈ (sendTeardownForExistingPath s fp k pid).2,
      ∃ t p, o = (Frame.snekTeardown t, p) := by
  intro o ho
  unfold sendTeardownForExistingPath at ho
  dsimp only at ho
  rw [List.mem_filterMap] at ho
  obtain ⟨hop, _, hmap⟩ := ho
  rw [Option.map_eq_some'] at hmap
  obtain ⟨peer, _, rfl⟩ := hmap
  exact ⟨_, _, rfl⟩

/-- Every send of a deferred teardown queue is a teardown frame. -/
theorem runTeardowns_frames (s : RouterState) :
    ∀ (sched : List SnekPathIndex) (o : Output),
      o ∈ (runTeardowns s sched).2 → ∃ t p, o = (Frame.snekTeardown t, p) := by
  intro sched
  induction sched generalizing s with
  | nil => intro o ho; simp [runTeardowns] at ho
  | cons k rest ih =>
      intro o ho
      unfold runTeardowns at ho
      set r1 := sendTeardownForExistingPath s 0 k.public_key k.path_id with hr1
      rw [List.mem_append] at ho
      rcases ho with ho | ho
      · exact sendTeardownForExistingPath_frames s 0 k.public_key k.path_id o
          (by rw [← hr1]; exact ho)
      · exact ih r1.1 o ho

/-- C8 amended: `maintain_snek` never sends a bootstrap in a state where the
parent or the current root key equals the node's own key, and `bootstrap_now`
sends nothing when the parent equals the node's own key; however
`bootstrap_now` checks only the parent, so it is not in general silent when
merely the current root key equals the node's own key. -/
theorem c8_no_bootstrap_when_root (s : RouterState) (now rnd : Nat)
    (h : s.parent = s.publicKey ∨ s.currentRoot.public_key = s.publicKey) :
    (maintainSnek s now rnd).map (fun r => hasBootstrap r.2) = some false ∧
    (s.parent = s.publicKey → bootstrapNow s now rnd = some []) := by
  have hcan : (!decide (s.parent = s.publicKey)
      && !decide (s.currentAnnouncement.root.public_key = s.publicKey)) = false := by
    rcases h with h | h
    · simp [h]
    · rw [RouterState.currentRoot] at h
      simp [h]
  constructor
  · simp only [maintainSnek, hcan]
    have hwill : (match s.ascending with
        | some asc =>
            if asc.root ≠ s.currentAnnouncement.root then false
            else if !(asc.validAt now s.currentRoot) then false
            else false
        | none => false) = false := by
      cases s.ascending <;> simp [ite_self]
    rw [hwill]
    simp only [if_false, Bool.false_eq_true]
    rw [Option.map_eq_some']
    refine ⟨_, rfl, ?_⟩
    exact hasBootstrap_eq_false _ (fun o ho => runTeardowns_frames s _ o ho)
  · intro hp
    unfold bootstrapNow
    rw [if_pos hp]

/-- Witness for C8's amended theorem at the concrete root state of the C6
scenario. -/
theorem c8_no_bootstrap_when_root_witness :
    (rootWithPeer pkTwo pkOne).parent = (rootWithPeer pkTwo pkOne).publicKey ∧
    (maintainSnek (rootWithPeer pkTwo pkOne) 0 0).map (fun r => hasBootstrap r.2)
      = some false ∧
    bootstrapNow (rootWithPeer pkTwo pkOne) 0 0 = some [] := by
  have h := c8_no_bootstrap_when_root (rootWithPeer pkTwo pkOne) 0 0
    (Or.inl rfl)
  exact ⟨rfl, h.1, h.2 rfl⟩

/-- Folding a step that preserves a property, where the step may use
membership of the element in the folded list. -/
theorem foldl_preserve_mem {α β : Type} (P : β → Prop) :
    ∀ (l : List α) (f : β → α → β),
      (∀ b a, a ∈ l → P b → P (f b a)) → ∀ b, P b → P (l.foldl f b)
  | [], _, _, _, hb => hb
  | a :: l, f, h, b, hb =>
      foldl_preserve_mem P l f (fun b x hx hb => h b x (List.mem_cons_of_mem a hx) hb)
        (f b a) (h b a (List.mem_cons_self a l) hb)

/-- A peer present in the port table has a port. -/
theorem portOf_isSome_of_mem_peers (s : RouterState) (p : PublicKey)
    (hp : p ∈ s.peersOf) : (s.portOf p).isSome := by
  unfold RouterState.portOf
  split
  · simp
  · rw [RouterState.peersOf, List.mem_filterMap] at hp
    obtain ⟨pr, hpr, hpr2⟩ := hp
    have : (s.ports.find? (fun pr => decide (pr.2 = some p))).isSome := by
      rw [List.find?_isSome]
      exact ⟨pr, hpr, by simp [hpr2]⟩
    cases hf : s.ports.find? (fun pr => decide (pr.2 = some p)) with
    | none => rw [hf] at this; simp at this
    | some pr0 => simp

/-- With unique port-table keys, looking up a key of a member yields it. -/
theorem alookup_eq_of_mem_nodup {α β : Type} [DecidableEq α] :
    ∀ (l : List (α × β)) (k : α) (v : β),
      (l.map Prod.fst).Nodup → (k, v) ∈ l → alookup l k = some v := by
  intro l
  induction l with
  | nil => intro k v _ hm; simp at hm
  | cons hd tl ih =>
      intro k v hnd hm
      rw [List.map_cons, List.nodup_cons] at hnd
      rcases List.mem_cons.mp hm with he | htl
      · rw [← he]
        simp [alookup, List.find?]
      · by_cases hk : hd.1 = k
        · exfalso
          apply hnd.1
          rw [hk]
          exact List.mem_map.mpr ⟨(k, v), htl, rfl⟩
        · simpa [alookup, List.find?, hk] using ih k v hnd.2 htl

/-- With well-formed ports, the peer on the port of a peer is that peer. -/
theorem getPeerOnPort_portOf (s : RouterState) (q : PublicKey) (fp : Port)
    (hzero : ∀ pr ∈ s.ports, pr.1 ≠ 0)
    (hnodup : (s.ports.map Prod.fst).Nodup)
    (h : s.portOf q = some fp) : s.getPeerOnPort fp = some q := by
  unfold RouterState.portOf at h
  split at h
  · rename_i hq
    cases h
    unfold RouterState.getPeerOnPort
    rw [if_pos rfl, hq]
  · rw [Option.map_eq_some'] at h
    obtain ⟨pr0, hfind, hfp⟩ := h
    have hmem := List.mem_of_find?_eq_some hfind
    have hval : pr0.2 = some q := by
      have := List.find?_some hfind
      simpa using this
    have hne : fp ≠ 0 := by
      rw [← hfp]; exact hzero pr0 hmem
    unfold RouterState.getPeerOnPort
    rw [if_neg hne]
    have : alookup s.ports fp = some pr0.2 := by
      rw [← hfp]
      exact alookup_eq_of_mem_nodup s.ports pr0.1 pr0.2 hnodup hmem
    rw [this, hval]

/-- The next tree hop is either self or a known peer. -/
theorem nextTreeHop_mem (s : RouterState) (dc : Coordinates) (from_ p : PublicKey)
    (h : nextTreeHop s dc from_ = some p) : p = s.publicKey ∨ p ∈ s.peersOf := by
  unfold nextTreeHop at h
  split at h
  · cases h; exact Or.inl rfl
  · dsimp only at h
    split at h
    · cases h; exact Or.inl rfl
    · have hinv := foldl_preserve_mem
        (fun acc : Option PublicKey × Nat × SequenceNumber =>
          acc.1 = none ∨ ∃ q, acc.1 = some q ∧ q ∈ s.peersOf)
        s.peersOf (nextTreeHopStep s dc from_) ?_ (none, dc.distance_to s.coordinates, U64MAX)
        (Or.inl rfl)
      · rcases hinv with hn | ⟨q, hq, hmq⟩
        · rw [hn] at h; cases h
        · rw [hq] at h; cases h; exact Or.inr hmq
      · intro acc a ha hacc
        unfold nextTreeHopStep
        split
        · exact hacc
        · split
          · exact hacc
          · split
            · exact hacc
            · dsimp only
              split
              · exact Or.inr ⟨a, rfl, ha⟩
              · exact hacc

/-- The DHT phase of `next_snek_hop` completes when every entry's source port
resolves. -/
theorem snekHopPaths_ne_none (s : RouterState) (now : Nat)
    (dk : PublicKey) (b : Bool) :
    ∀ (l : List (SnekPathIndex × SnekPath)),
      (∀ pr ∈ l, (s.getPeerOnPort pr.2.source).isSome) →
      ∀ acc, snekHopPaths s now dk b l acc ≠ none
  | [], _, acc => by simp [snekHopPaths]
  | pr :: rest, h, acc => by
      have hpr : (s.getPeerOnPort pr.2.source).isSome :=
        h pr (List.mem_cons_self pr rest)
      have hrest : ∀ q ∈ rest, (s.getPeerOnPort q.2.source).isSome :=
        fun q hq => h q (List.mem_cons_of_mem pr hq)
      have hstep : (snekHopPath s now dk b acc pr).isSome := by
        unfold snekHopPath
        cases hg : s.getPeerOnPort pr.2.source with
        | none => rw [hg] at hpr; simp at hpr
        | some peer =>
            split
            · simp
            · split
              · simp
              · by_cases hC : (!b && decide (pr.1.public_key = dk)
                    && !decide (acc.1 = dk)) = true
                · rw [if_pos hC]
                  simp only [Option.map_some']
                  split <;> simp
                · rw [if_neg hC]
                  dsimp only
                  split <;> simp
      cases hs : snekHopPath s now dk b acc pr with
      | none => rw [hs] at hstep; simp at hstep
      | some acc1 =>
          unfold snekHopPaths
          rw [hs]
          exact snekHopPaths_ne_none s now dk b rest hrest acc1

/-- `next_snek_hop` completes when every entry's source port resolves. -/
theorem nextSnekHop_isSome_of_ports (s : RouterState) (now : Nat)
    (dk : PublicKey) (b t : Bool)
    (h : ∀ pr ∈ s.paths, (s.getPeerOnPort pr.2.source).isSome) :
    (nextSnekHop s now dk b t).isSome := by
  unfold nextSnekHop
  split
  · simp
  · dsimp only
    split
    · rename_i heq
      exact absurd heq (snekHopPaths_ne_none s now dk b s.paths h _)
    · simp

/-- `handle_setup` completes whenever the sender's and the next hop's port
lookups resolve. -/
theorem handleSetup_isSome (s : RouterState) (fp : Port) (rx : SnekSetup)
    (nh : Port) (now : Nat)
    (hfp : (s.getPeerOnPort fp).isSome)
    (hnh : (s.getPeerOnPort nh).isSome) :
    (handleSetup s fp rx nh now).isSome := by
  cases hg : s.getPeerOnPort fp with
  | none => rw [hg] at hfp; simp at hfp
  | some fq =>
  cases hgn : s.getPeerOnPort nh with
  | none => rw [hgn] at hnh; simp at hnh
  | some nq =>
  have hrej : sendTeardownForRejectedPath s rx.source_key rx.path_id fp
      = some [(Frame.snekTeardown (getTeardown s rx.source_key rx.path_id), fq)] := by
    unfold sendTeardownForRejectedPath
    rw [hg]
    rfl
  unfold handleSetup
  have hout0 : (if s.currentRoot ≠ rx.root then
      sendTeardownForRejectedPath s rx.source_key rx.path_id fp
    else some ([] : List Output)).isSome := by
    split
    · rw [hrej]; simp
    · simp
  cases h0 : (if s.currentRoot ≠ rx.root then
      sendTeardownForRejectedPath s rx.source_key rx.path_id fp
    else some ([] : List Output)) with
  | none => rw [h0] at hout0; simp at hout0
  | some out0 =>
      dsimp only
      split
      · rw [hrej]; simp
      · split
        · split
          · rw [hrej]; simp
          · split
            · rename_i heq
              have h2 : s.getPeerOnPort fp = none := heq
              rw [hg] at h2; cases h2
            · simp
        · split
          · rename_i heq
            have h2 : s.getPeerOnPort nh = none := heq
            rw [hgn] at h2; cases h2
          · split
            · rw [hrej]; simp
            · simp

/-- Self always resolves to port 0. -/
theorem portOf_self (s : RouterState) : s.portOf s.publicKey = some 0 := by
  unfold RouterState.portOf
  rw [if_pos rfl]

/-- The setup-ack scan completes when every entry's source port resolves. -/
theorem handleSetupAckLoop_ne_none (s : RouterState) (fp : Port)
    (rx : SnekSetupAck) :
    ∀ (l : List (SnekPathIndex × SnekPath)),
      (∀ pr ∈ l, (s.getPeerOnPort pr.2.source).isSome) →
      ∀ acc, handleSetupAckLoop s fp rx l acc ≠ none
  | [], _, acc => by simp [handleSetupAckLoop]
  | (k, e) :: rest, h, (asc, cand) => by
      have he : (s.getPeerOnPort e.source).isSome :=
        h (k, e) (List.mem_cons_self _ _)
      have hrest : ∀ pr ∈ rest, (s.getPeerOnPort pr.2.source).isSome :=
        fun pr hpr => h pr (List.mem_cons_of_mem _ hpr)
      unfold handleSetupAckLoop
      split
      · intro hc
        rw [Option.map_eq_none'] at hc
        exact handleSetupAckLoop_ne_none s fp rx rest hrest _ hc
      · split
        · cases hsrc : (if e.source ≠ 0 then
              (s.getPeerOnPort e.source).map (fun p => [(Frame.snekSetupAck rx, p)])
            else some ([] : List Output)) with
          | none =>
              exfalso
              rw [if_pos ?_] at hsrc
              · rw [Option.map_eq_none'] at hsrc
                rw [hsrc] at he; simp at he
              · intro h0
                rw [if_neg (by simpa using h0)] at hsrc
                cases hsrc
          | some outs1 =>
              dsimp only
              intro hc
              rw [Option.map_eq_none'] at hc
              exact handleSetupAckLoop_ne_none s fp rx rest hrest _ hc
        · intro hc
          rw [Option.map_eq_none'] at hc
          exact handleSetupAckLoop_ne_none s fp rx rest hrest _ hc

/-- `handle_setup_ack` completes when every entry's source port resolves. -/
theorem handleSetupAck_isSome (s : RouterState) (fp : Port) (rx : SnekSetupAck)
    (h : ∀ pr ∈ s.paths, (s.getPeerOnPort pr.2.source).isSome) :
    (handleSetupAck s fp rx).isSome := by
  unfold handleSetupAck
  split
  · rename_i heq
    exact absurd heq (handleSetupAckLoop_ne_none s fp rx s.paths h _)
  · simp

/-- `handle_bootstrap_ack` completes under well-formed ports: a next hop it
accepts is a known peer, so its port resolves. -/
theorem handleBootstrapAck_isSome (s : RouterState) (ack : SnekBootstrapAck)
    (now : Nat) : (handleBootstrapAck s ack now).isSome := by
  unfold handleBootstrapAck
  split
  · simp
  · dsimp only
    split
    · simp
    · rename_i nextPeer hnth
      split
      · simp
      · rename_i hne
        cases hpo : s.portOf nextPeer with
        | none =>
            exfalso
            rcases nextTreeHop_mem s ack.source_coordinates s.publicKey nextPeer
              hnth with he | hm
            · exact hne he.symm
            · have := portOf_isSome_of_mem_peers s nextPeer hm
              rw [hpo] at this; simp at this
        | some destPort =>
            dsimp only
            simp

/-- C3 counterexample: a `SnekTeardown` from a sender with no assigned port
makes `handle_frame` panic on `port(from).unwrap()`. -/
theorem c3_counterexample_unknown_sender :
    handleFrame (lonelyState pkOne)
      (Frame.snekTeardown
        { root := { public_key := pkOne, sequence_number := 0 }
          destination_key := pkTwo, path_id := 0 }) pkTwo 0 = none := by decide

/-- C3 amended: `handle_frame` returns no error across the dispatch boundary
(transport sends aside), and it completes — does not panic — whenever the
port table is well formed, the sender has a port (port 0 for self), every
stored path entry's source port resolves, and a `SnekSetup` has a next tree
hop.  Without those hypotheses it can panic: `port(from).unwrap()` for
`SnekSetup`/`SnekSetupAck`/`SnekTeardown` from an unknown sender,
`next_tree_hop(...).unwrap()` for a `SnekSetup` with no hop, and
`get_peer_on_port(entry.source).unwrap()` on stale path entries. -/
theorem c3_dispatch_total_under_wf (s : RouterState) (frame : Frame)
    (from_ : PublicKey) (now : Nat)
    (hzero : ∀ pr ∈ s.ports, pr.1 ≠ 0)
    (hnodup : (s.ports.map Prod.fst).Nodup)
    (hfrom : (s.portOf from_).isSome)
    (hpaths : ∀ pr ∈ s.paths, (s.getPeerOnPort pr.2.source).isSome)
    (hsetup : ∀ st, frame = Frame.snekSetup st →
      (nextTreeHop s st.destination from_).isSome) :
    (handleFrame s frame from_ now).isSome := by
  cases frame with
  | treeRouted p =>
      unfold handleFrame
      dsimp only
      split <;> simp
  | snekRouted p =>
      unfold handleFrame
      dsimp only
      have h1 := nextSnekHop_isSome_of_ports s now p.destination_key false true hpaths
      split
      · rename_i heq; rw [heq] at h1; simp at h1
      · simp
      · simp
  | treeAnnouncement a =>
      unfold handleFrame
      simp
  | snekBootstrap b =>
      unfold handleFrame
      dsimp only
      have h1 := nextSnekHop_isSome_of_ports s now b.destination_key true false hpaths
      split
      · rename_i heq; rw [heq] at h1; simp at h1
      · rename_i heq
        have h2 := nextSnekHop_isSome_of_not_traffic s now b.destination_key true
          none heq
        simp at h2
      · split <;> simp
  | snekBootstrapAck a =>
      unfold handleFrame
      dsimp only
      split
      · split
        · have h3 := handleBootstrapAck_isSome s a now
          cases hba : handleBootstrapAck s a now with
          | none => rw [hba] at h3; simp at h3
          | some r => simp
        · simp
      · simp
  | snekSetup st =>
      unfold handleFrame
      dsimp only
      cases hp : s.portOf from_ with
      | none => rw [hp] at hfrom; simp at hfrom
      | some fp =>
          have hnt := hsetup st rfl
          cases hnth : nextTreeHop s st.destination from_ with
          | none => rw [hnth] at hnt; simp at hnt
          | some nhPeer =>
              have hpnh : (s.portOf nhPeer).isSome := by
                rcases nextTreeHop_mem s st.destination from_ nhPeer hnth with
                  he | hm
                · rw [he, portOf_self]; simp
                · exact portOf_isSome_of_mem_peers s nhPeer hm
              cases hpo : s.portOf nhPeer with
              | none => rw [hpo] at hpnh; simp at hpnh
              | some nhp =>
                  have hsfp : s.getPeerOnPort fp = some from_ :=
                    getPeerOnPort_portOf s from_ fp hzero hnodup hp
                  have hsnh : s.getPeerOnPort nhp = some nhPeer :=
                    getPeerOnPort_portOf s nhPeer nhp hzero hnodup hpo
                  have hs := handleSetup_isSome s fp st nhp now
                    (by rw [hsfp]; simp) (by rw [hsnh]; simp)
                  cases hhs : handleSetup s fp st nhp now with
                  | none => rw [hhs] at hs; simp at hs
                  | some r => simp [hnth, hpo, hhs]
  | snekSetupAck a =>
      unfold handleFrame
      dsimp only
      cases hp : s.portOf from_ with
      | none => rw [hp] at hfrom; simp at hfrom
      | some fp =>
          have h4 := handleSetupAck_isSome s fp a hpaths
          cases hha : handleSetupAck s fp a with
          | none => rw [hha] at h4; simp at h4
          | some r => simp [hha]
  | snekTeardown t =>
      unfold handleFrame
      dsimp only
      cases hp : s.portOf from_ with
      | none => rw [hp] at hfrom; simp at hfrom
      | some fp => simp

/-- Witness for C3's amended theorem: a data frame from self in a fresh
state. -/
theorem c3_dispatch_total_under_wf_witness :
    ((lonelyState pkOne).portOf pkOne).isSome ∧
    (handleFrame (lonelyState pkOne) (Frame.treeRouted ⟨[], []⟩) pkOne 0).isSome :=
  ⟨by decide,
    c3_dispatch_total_under_wf (lonelyState pkOne) (Frame.treeRouted ⟨[], []⟩)
      pkOne 0 (by intro pr hpr; simp [lonelyState] at hpr) (by decide)
      (by decide) (by intro pr hpr; simp [lonelyState] at hpr)
      (by intro st hst; cases hst)⟩

/-! Order lemmas for the lexicographic key and root orders. -/

/-- `keyLt` is irreflexive. -/
theorem keyLt_irrefl : ∀ a : PublicKey, keyLt a a = false
  | [] => rfl
  | _ :: xs => by simp [keyLt, keyLt_irrefl xs]

/-- `keyLt` is transitive. -/
theorem keyLt_trans : ∀ a b c : PublicKey,
    keyLt a b = true → keyLt b c = true → keyLt a c = true
  | [], [], _ :: _, _, _ => rfl
  | [], _ :: _, _ :: _, _, _ => rfl
  | x :: xs, y :: ys, z :: zs, hab, hbc => by
      simp only [keyLt, Bool.or_eq_true, Bool.and_eq_true, decide_eq_true_eq] at *
      rcases hab with hab | ⟨hxy, hab⟩
      · rcases hbc with hbc | ⟨hyz, hbc⟩
        · exact Or.inl (lt_trans hab hbc)
        · exact Or.inl (hyz ▸ hab)
      · rcases hbc with hbc | ⟨hyz, hbc⟩
        · exact Or.inl (hxy ▸ hbc)
        · exact Or.inr ⟨hxy.trans hyz, keyLt_trans xs ys zs hab hbc⟩

/-- `keyLt` is trichotomous. -/
theorem keyLt_trichotomy : ∀ a b : PublicKey,
    a = b ∨ keyLt a b = true ∨ keyLt b a = true
  | [], [] => Or.inl rfl
  | [], _ :: _ => Or.inr (Or.inl rfl)
  | _ :: _, [] => Or.inr (Or.inr rfl)
  | x :: xs, y :: ys => by
      rcases Nat.lt_trichotomy x y with h | h | h
      · exact Or.inr (Or.inl (by simp [keyLt, h]))
      · rcases keyLt_trichotomy xs ys with h2 | h2 | h2
        · exact Or.inl (by rw [h, h2])
        · exact Or.inr (Or.inl (by simp [keyLt, h, h2]))
        · exact Or.inr (Or.inr (by simp [keyLt, h, h2]))
      · exact Or.inr (Or.inr (by simp [keyLt, h]))

/-- `keyLt` is asymmetric. -/
theorem keyLt_asymm (a b : PublicKey) (h : keyLt a b = true) :
    keyLt b a = false := by
  by_contra hc
  rw [Bool.not_eq_false] at hc
  have := keyLt_trans a b a h hc
  rw [keyLt_irrefl] at this
  cases this

/-- `rootLt` is irreflexive. -/
theorem rootLt_irrefl (r : Root) : rootLt r r = false := by
  simp [rootLt, keyLt_irrefl]

/-- `rootLt` is transitive. -/
theorem rootLt_trans (a b c : Root) (hab : rootLt a b = true)
    (hbc : rootLt b c = true) : rootLt a c = true := by
  simp only [rootLt, Bool.or_eq_true, Bool.and_eq_true, decide_eq_true_eq] at *
  rcases hab with hab | ⟨hk, hs⟩
  · rcases hbc with hbc | ⟨hk2, _⟩
    · exact Or.inl (keyLt_trans _ _ _ hab hbc)
    · exact Or.inl (hk2 ▸ hab)
  · rcases hbc with hbc | ⟨hk2, hs2⟩
    · exact Or.inl (hk ▸ hbc)
    · exact Or.inr ⟨hk.trans hk2, lt_trans hs hs2⟩

/-- `rootLt` is trichotomous. -/
theorem rootLt_trichotomy (a b : Root) :
    a = b ∨ rootLt a b = true ∨ rootLt b a = true := by
  rcases keyLt_trichotomy a.public_key b.public_key with h | h | h
  · rcases Nat.lt_trichotomy a.sequence_number b.sequence_number with h2 | h2 | h2
    · exact Or.inr (Or.inl (by simp [rootLt, h, h2]))
    · refine Or.inl ?_
      cases a; cases b
      simp_all
    · exact Or.inr (Or.inr (by simp [rootLt, h.symm, h2]))
  · exact Or.inr (Or.inl (by simp [rootLt, h]))
  · exact Or.inr (Or.inr (by simp [rootLt, h]))

/-- `rootLt` is asymmetric. -/
theorem rootLt_asymm (a b : Root) (h : rootLt a b = true) :
    rootLt b a = false := by
  by_contra hc
  rw [Bool.not_eq_false] at hc
  have := rootLt_trans a b a h hc
  rw [rootLt_irrefl] at this
  cases this

/-- An association-list hit is a member. -/
theorem alookup_mem {α β : Type} [DecidableEq α] (l : List (α × β)) (k : α)
    (v : β) (h : alookup l k = some v) : (k, v) ∈ l := by
  unfold alookup at h
  rw [Option.map_eq_some'] at h
  obtain ⟨pr, hfind, hv⟩ := h
  have hmem := List.mem_of_find?_eq_some hfind
  have hk : pr.1 = k := by simpa using List.find?_some hfind
  have : (k, v) = pr := by
    cases pr
    simp_all
  rw [this]
  exact hmem

/-- A peer is a candidate of `parent_selection` when its announcement is
stored, fresh, not a loop of self, and its root is not weaker than the
current root of the (possibly self-promoted) state. -/
def c7Eligible (s0 : RouterState) (now : Nat) (peer : PublicKey)
    (a : TreeAnnouncement) : Prop :=
  peer ∈ s0.peersOf ∧
  s0.treeAnnouncementOf peer = some a ∧
  ¬(now - a.receive_time > ANNOUNCEMENT_TIMEOUT) ∧
  a.is_loop_of_child s0.publicKey = false ∧
  rootLt a.root s0.currentRoot = false

/-- Announcement `b` beats announcement `a` for parent election: strictly
stronger root, or the same root with a strictly lower receive order. -/
def c7Better (b a : TreeAnnouncement) : Prop :=
  rootLt a.root b.root = true ∨
    (b.root = a.root ∧ b.receive_order < a.receive_order)

/-- Domination between fold accumulators: the second is at least as good as
the first (stronger root, or same root and no larger receive order). -/
@[reducible] def accDom (x y : Root × Option PublicKey × SequenceNumber) : Prop :=
  rootLt x.1 y.1 = true ∨ (x.1 = y.1 ∧ y.2.2 ≤ x.2.2)

/-- `accDom` is reflexive. -/
theorem accDom_refl (x : Root × Option PublicKey × SequenceNumber) :
    accDom x x := Or.inr ⟨rfl, le_refl _⟩

/-- `accDom` is transitive. -/
theorem accDom_trans (x y z : Root × Option PublicKey × SequenceNumber)
    (hxy : accDom x y) (hyz : accDom y z) : accDom x z := by
  rcases hxy with h | ⟨he, ho⟩
  · rcases hyz with h2 | ⟨he2, _⟩
    · exact Or.inl (rootLt_trans _ _ _ h h2)
    · exact Or.inl (he2 ▸ h)
  · rcases hyz with h2 | ⟨he2, ho2⟩
    · exact Or.inl (he ▸ h2)
    · exact Or.inr ⟨he.trans he2, ho2.trans ho⟩

/-- Shape of the parent-selection accumulator: either still the initial pair
(current root, maximal order) or the data of a fresh, non-loop candidate
whose root is not weaker than the current root. -/
@[reducible] def accShape (s0 : RouterState) (now : Nat)
    (acc : Root × Option PublicKey × SequenceNumber) : Prop :=
  (acc.2.1 = none → acc.1 = s0.currentRoot ∧ acc.2.2 = U64MAX) ∧
  (∀ p, acc.2.1 = some p → ∃ a, s0.treeAnnouncementOf p = some a ∧
    ¬(now - a.receive_time > ANNOUNCEMENT_TIMEOUT) ∧
    a.is_loop_of_child s0.publicKey = false ∧
    rootLt a.root s0.currentRoot = false ∧
    acc.1 = a.root ∧ acc.2.2 = a.receive_order)

/-- A shaped accumulator never carries a root weaker than the current one. -/
theorem accShape_not_weak (s0 : RouterState) (now : Nat)
    (acc : Root × Option PublicKey × SequenceNumber)
    (h : accShape s0 now acc) : rootLt acc.1 s0.currentRoot = false := by
  cases hacc : acc.2.1 with
  | none => rw [(h.1 hacc).1]; exact rootLt_irrefl _
  | some p =>
      obtain ⟨a, _, _, _, hw, he, _⟩ := h.2 p hacc
      rw [he]
      exact hw

/-- One step of the parent-selection loop: preserves the accumulator shape,
only improves the accumulator, introduces only the visited peer, and ends at
least as good as any fresh non-loop announcement of the visited peer. -/
theorem parentSelectionStep_spec (s0 : RouterState) (now : Nat)
    (acc : Root × Option PublicKey × SequenceNumber) (q : PublicKey)
    (hsh : accShape s0 now acc) :
    accShape s0 now (parentSelectionStep s0 now acc q) ∧
    accDom acc (parentSelectionStep s0 now acc q) ∧
    (∀ p, (parentSelectionStep s0 now acc q).2.1 = some p →
      acc.2.1 = some p ∨ p = q) ∧
    (∀ b, s0.treeAnnouncementOf q = some b →
      ¬(now - b.receive_time > ANNOUNCEMENT_TIMEOUT) →
      b.is_loop_of_child s0.publicKey = false →
      accDom (b.root, none, b.receive_order) (parentSelectionStep s0 now acc q)) := by
  have hnw := accShape_not_weak s0 now acc hsh
  cases hb : s0.treeAnnouncementOf q with
  | none =>
      have hres : parentSelectionStep s0 now acc q = acc := by
        unfold parentSelectionStep
        rw [hb]
      rw [hres]
      exact ⟨hsh, accDom_refl acc, fun p hp => Or.inl hp,
        fun b hb2 => by cases hb2⟩
  | some b =>
      by_cases hstale : now - b.receive_time > ANNOUNCEMENT_TIMEOUT
      · have hres : parentSelectionStep s0 now acc q = acc := by
          unfold parentSelectionStep
          rw [hb]
          dsimp only
          rw [if_pos hstale]
        rw [hres]
        refine ⟨hsh, accDom_refl acc, fun p hp => Or.inl hp,
          fun b0 hb0 hfresh _ => ?_⟩
        cases hb0
        exact absurd hstale hfresh
      · by_cases hloop : b.is_loop_of_child s0.publicKey = true
        · have hres : parentSelectionStep s0 now acc q = acc := by
            unfold parentSelectionStep
            rw [hb]
            dsimp only
            rw [if_neg hstale, if_pos hloop]
          rw [hres]
          refine ⟨hsh, accDom_refl acc, fun p hp => Or.inl hp,
            fun b0 hb0 _ hnl => ?_⟩
          cases hb0
          rw [hloop] at hnl; cases hnl
        · by_cases hA : rootLt acc.1 b.root = true
          · have hres : parentSelectionStep s0 now acc q
                = (b.root, some q, b.receive_order) := by
              unfold parentSelectionStep
              rw [hb]
              dsimp only
              rw [if_neg hstale, if_neg hloop]
              simp [hA, rootLt_irrefl]
            rw [hres]
            have hbw : rootLt b.root s0.currentRoot = false := by
              by_contra hc
              rw [Bool.not_eq_false] at hc
              have := rootLt_trans _ _ _ hA hc
              rw [hnw] at this; cases this
            refine ⟨?_, ?_, ?_, ?_⟩
            · constructor
              · intro hno; cases hno
              · intro p hp
                cases hp
                exact ⟨b, hb, hstale, by rwa [Bool.not_eq_true] at hloop, hbw,
                  rfl, rfl⟩
            · exact Or.inl hA
            · intro p hp
              cases hp
              exact Or.inr rfl
            · intro b0 hb0 _ _
              cases hb0
              exact Or.inr ⟨rfl, le_refl _⟩
          · by_cases hB : rootLt b.root acc.1 = true
            · have hres : parentSelectionStep s0 now acc q = acc := by
                unfold parentSelectionStep
                rw [hb]
                dsimp only
                rw [if_neg hstale, if_neg hloop]
                simp [hA, hB]
              rw [hres]
              refine ⟨hsh, accDom_refl acc, fun p hp => Or.inl hp,
                fun b0 hb0 _ _ => ?_⟩
              cases hb0
              exact Or.inl hB
            · have heq : b.root = acc.1 := by
                rcases rootLt_trichotomy b.root acc.1 with h | h | h
                · exact h
                · exact absurd h hB
                · exact absurd h hA
              by_cases hC : b.receive_order < acc.2.2
              · have hres : parentSelectionStep s0 now acc q
                    = (b.root, some q, b.receive_order) := by
                  unfold parentSelectionStep
                  rw [hb]
                  dsimp only
                  rw [if_neg hstale, if_neg hloop]
                  simp [hA, hB, hC]
                rw [hres]
                have hbw : rootLt b.root s0.currentRoot = false := by
                  rw [heq]; exact hnw
                refine ⟨?_, ?_, ?_, ?_⟩
                · constructor
                  · intro hno; cases hno
                  · intro p hp
                    cases hp
                    exact ⟨b, hb, hstale, by rwa [Bool.not_eq_true] at hloop,
                      hbw, rfl, rfl⟩
                · exact Or.inr ⟨heq.symm, le_of_lt hC⟩
                · intro p hp
                  cases hp
                  exact Or.inr rfl
                · intro b0 hb0 _ _
                  cases hb0
                  exact Or.inr ⟨rfl, le_refl _⟩
              · have hres : parentSelectionStep s0 now acc q = acc := by
                  unfold parentSelectionStep
                  rw [hb]
                  dsimp only
                  rw [if_neg hstale, if_neg hloop]
                  simp [hA, hB, hC]
                rw [hres]
                refine ⟨hsh, accDom_refl acc, fun p hp => Or.inl hp,
                  fun b0 hb0 _ _ => ?_⟩
                cases hb0
                exact Or.inr ⟨heq, le_of_not_lt hC⟩

/-- The parent-selection loop: preserves the accumulator shape, only
improves the accumulator, only elects visited peers, and ends at least as
good as every fresh non-loop announcement of a visited peer. -/
theorem parentSelectionFold_go (s0 : RouterState) (now : Nat) :
    ∀ (l : List PublicKey) (acc : Root × Option PublicKey × SequenceNumber),
      accShape s0 now acc →
      accShape s0 now (l.foldl (parentSelectionStep s0 now) acc) ∧
      accDom acc (l.foldl (parentSelectionStep s0 now) acc) ∧
      (∀ p, (l.foldl (parentSelectionStep s0 now) acc).2.1 = some p →
        acc.2.1 = some p ∨ p ∈ l) ∧
      (∀ q b, q ∈ l → s0.treeAnnouncementOf q = some b →
        ¬(now - b.receive_time > ANNOUNCEMENT_TIMEOUT) →
        b.is_loop_of_child s0.publicKey = false →
        accDom (b.root, none, b.receive_order)
          (l.foldl (parentSelectionStep s0 now) acc))
  | [], acc, hsh =>
      ⟨hsh, accDom_refl acc, fun p hp => Or.inl hp,
        fun q b hq _ _ _ => absurd hq (List.not_mem_nil q)⟩
  | x :: l, acc, hsh => by
      obtain ⟨hsh1, hdom1, hmem1, hbeat1⟩ :=
        parentSelectionStep_spec s0 now acc x hsh
      obtain ⟨hsh2, hdom2, hmem2, hbeat2⟩ :=
        parentSelectionFold_go s0 now l (parentSelectionStep s0 now acc x) hsh1
      rw [List.foldl_cons]
      refine ⟨hsh2, accDom_trans _ _ _ hdom1 hdom2, ?_, ?_⟩
      · intro p hp
        rcases hmem2 p hp with h | h
        · rcases hmem1 p h with h2 | h2
          · exact Or.inl h2
          · exact Or.inr (by rw [h2]; exact List.mem_cons_self x l)
        · exact Or.inr (List.mem_cons_of_mem x h)
      · intro q b hq hb hf hnl
        rcases List.mem_cons.mp hq with he | hm
        · subst he
          exact accDom_trans _ _ _ (hbeat1 b hb hf hnl) hdom2
        · exact hbeat2 q b hm hb hf hnl

/-- Self-promotion does not change the node's key. -/
theorem selfPromote_publicKey (s : RouterState) :
    (selfPromote s).publicKey = s.publicKey := by
  unfold selfPromote becomeRoot
  split <;> rfl

/-- C7 amended: after first self-promoting when the node's key beats the
current root, `parent_selection` elects among the peers with a stored, fresh
(within `ANNOUNCEMENT_TIMEOUT`), non-loop announcement whose root is at
least as strong as the current root; the elected peer has a strongest root,
ties broken by lowest receive order; when no such peer exists it becomes
root and returns false; it returns true iff the elected peer differs from
the parent after self-promotion (setting the parent to it). -/
theorem c7_parent_selection_elects_best (s : RouterState) (now : Nat)
    (hord : ∀ pr ∈ (selfPromote s).announcements, pr.2.receive_order < U64MAX) :
    ((parentSelectionFold (selfPromote s) now).2.1 = none →
      (∀ q b, ¬ c7Eligible (selfPromote s) now q b) ∧
      (parentSelection s now).2.2 = false ∧
      (parentSelection s now).1.parent = s.publicKey) ∧
    (∀ p, (parentSelectionFold (selfPromote s) now).2.1 = some p →
      (∃ a, c7Eligible (selfPromote s) now p a ∧
        ∀ q b, c7Eligible (selfPromote s) now q b → ¬ c7Better b a) ∧
      ((parentSelection s now).2.2 = true ↔ ¬ p = (selfPromote s).parent) ∧
      (¬ p = (selfPromote s).parent → (parentSelection s now).1.parent = p)) := by
  set s0 := selfPromote s with hs0
  have hinit : accShape s0 now (s0.currentRoot, none, U64MAX) :=
    ⟨fun _ => ⟨rfl, rfl⟩, fun p hp => by cases hp⟩
  obtain ⟨hshF, hdomF, hmemF, hbeatF⟩ :=
    parentSelectionFold_go s0 now s0.peersOf (s0.currentRoot, none, U64MAX) hinit
  have hfold : parentSelectionFold s0 now
      = s0.peersOf.foldl (parentSelectionStep s0 now)
          (s0.currentRoot, none, U64MAX) := rfl
  rw [← hfold] at hshF hdomF hmemF hbeatF
  constructor
  · intro hnone
    obtain ⟨he1, he2⟩ := hshF.1 hnone
    refine ⟨?_, ?_⟩
    · intro q b hel
      obtain ⟨hqmem, hqlk, hqf, hqnl, hqw⟩ := hel
      have hdomb := hbeatF q b hqmem hqlk hqf hqnl
      rcases hdomb with h | ⟨_, hord2⟩
      · rw [he1] at h
        rw [hqw] at h
        cases h
      · have hmem3 : (q, b) ∈ s0.announcements := alookup_mem _ _ _ hqlk
        have hlt := hord (q, b) hmem3
        rw [he2] at hord2
        exact absurd (lt_of_lt_of_le hlt hord2) (lt_irrefl _)
    · unfold parentSelection
      dsimp only
      rw [← hs0, hnone]
      exact ⟨rfl, selfPromote_publicKey s⟩
  · intro p hp
    refine ⟨?_, ?_⟩
    · obtain ⟨a, halk, haf, hanl, haw, hroot, hordp⟩ := hshF.2 p hp
      have hpmem : p ∈ s0.peersOf := by
        rcases hmemF p hp with h | h
        · cases h
        · exact h
      refine ⟨a, ⟨hpmem, halk, haf, hanl, haw⟩, ?_⟩
      intro q b hel hbet
      obtain ⟨hqm, hqlk, hqf, hqnl, _⟩ := hel
      have hdomb := hbeatF q b hqm hqlk hqf hqnl
      rcases hdomb with h | ⟨he, ho⟩
      · have hbr : rootLt b.root a.root = true := by
          rw [← hroot]
          simpa using h
        rcases hbet with hb1 | ⟨hb2, _⟩
        · rw [rootLt_asymm _ _ hbr] at hb1
          cases hb1
        · rw [hb2] at hbr
          rw [rootLt_irrefl] at hbr
          cases hbr
      · have hbe : b.root = a.root := by
          rw [← hroot]
          simpa using he
        have hbo : a.receive_order ≤ b.receive_order := by
          rw [← hordp]
          simpa using ho
        rcases hbet with hb1 | ⟨_, hb3⟩
        · rw [hbe] at hb1
          rw [rootLt_irrefl] at hb1
          cases hb1
        · exact absurd hb3 (not_lt_of_le hbo)
    · unfold parentSelection
      dsimp only
      rw [← hs0, hp]
      dsimp only
      by_cases hpp : p = s0.parent
      · rw [if_pos hpp]
        exact ⟨by simp [hpp], fun h => absurd hpp h⟩
      · rw [if_neg hpp]
        exact ⟨by simp [hpp], fun _ => rfl⟩

/-- Announcement for the C7 counterexample: peer `[1;32]` announces root
`{[2;32], 0}`, weaker than the node key `[3;32]`. -/
def c7CexAnn : TreeAnnouncement :=
  { root := { public_key := pkTwo, sequence_number := 0 }
    signatures := [⟨pkTwo, 1⟩, ⟨pkOne, 1⟩], receive_time := 0
    receive_order := 3 }

/-- C7 counterexample state: node `[3;32]` is its own root, its only peer
`[1;32]` has a fresh, non-loop announcement with a weaker root. -/
def c7CexState : RouterState :=
  { publicKey := pkThree, parent := pkThree, announcements := [(pkOne, c7CexAnn)]
    sequence := 0, ordering := 0, reparentTimerExpired := true
    ports := [(1, some pkOne)]
    ascending := none, descending := none, paths := [], candidate := none }

/-- C7 counterexample: peer `[1;32]`'s announcement is stored, fresh and not
a loop of self, and the peer differs from the previous parent, so the claim
says `parent_selection` elects it and returns true; the code skips every
peer whose root is weaker than the current root, becomes root and returns
false. -/
theorem c7_counterexample_weak_peer_not_elected :
    pkOne ∈ c7CexState.peersOf ∧
    c7CexState.treeAnnouncementOf pkOne = some c7CexAnn ∧
    ¬(0 - c7CexAnn.receive_time > ANNOUNCEMENT_TIMEOUT) ∧
    c7CexAnn.is_loop_of_child c7CexState.publicKey = false ∧
    ¬ pkOne = c7CexState.parent ∧
    (parentSelection c7CexState 0).2.2 = false ∧
    (parentSelection c7CexState 0).1.parent = c7CexState.publicKey := by decide

/-- Witness state for C7: node `[1;32]`, peer `[2;32]` announcing the
stronger root `{[3;32],0}`. -/
def c7WitState : RouterState :=
  { publicKey := pkOne, parent := pkOne
    announcements := [(pkTwo,
      { root := { public_key := pkThree, sequence_number := 0 }
        signatures := [⟨pkThree, 1⟩, ⟨pkTwo, 1⟩], receive_time := 0
        receive_order := 3 })]
    sequence := 0, ordering := 0, reparentTimerExpired := true
    ports := [(1, some pkTwo)]
    ascending := none, descending := none, paths := [], candidate := none }

/-- Witness for C7's amended theorem: the stronger-rooted peer is elected
and the parent changes. -/
theorem c7_parent_selection_elects_best_witness :
    (∀ pr ∈ (selfPromote c7WitState).announcements, pr.2.receive_order < U64MAX) ∧
    (parentSelectionFold (selfPromote c7WitState) 0).2.1 = some pkTwo ∧
    (parentSelection c7WitState 0).2.2 = true := by
  have h := c7_parent_selection_elects_best c7WitState 0 (by decide)
  refine ⟨by decide, by decide, ?_⟩
  have h2 := (h.2 pkTwo (by decide)).2.1
  rw [h2]
  decide

/-! Path-table invariant machinery for the at-most-one claim. -/

/-- Membership after erasing a key. -/
theorem mem_aerase {α β : Type} [DecidableEq α] {l : List (α × β)} {k : α}
    {pr : α × β} (h : pr ∈ aerase l k) : pr ∈ l ∧ ¬ pr.1 = k := by
  unfold aerase at h
  rw [List.mem_filter] at h
  exact ⟨h.1, by simpa using h.2⟩

/-- Erasing never increases a count. -/
theorem countP_aerase_le {α β : Type} [DecidableEq α] (l : List (α × β))
    (k : α) (P : α × β → Bool) : (aerase l k).countP P ≤ l.countP P := by
  unfold aerase
  induction l with
  | nil => simp
  | cons hd tl ih =>
      rw [List.filter_cons]
      by_cases hq : (!decide (hd.1 = k)) = true
      · rw [if_pos hq, List.countP_cons, List.countP_cons]
        omega
      · rw [if_neg hq, List.countP_cons]
        omega

/-- Erasing preserves key uniqueness. -/
theorem nodup_aerase_fst {α β : Type} [DecidableEq α] (l : List (α × β))
    (k : α) (h : (l.map Prod.fst).Nodup) :
    ((aerase l k).map Prod.fst).Nodup :=
  ((List.filter_sublist l).map Prod.fst).nodup h

/-- Membership after an insert-or-replace. -/
theorem mem_ainsert {α β : Type} [DecidableEq α] {l : List (α × β)} {k : α}
    {v : β} {pr : α × β} (h : pr ∈ ainsert l k v) :
    pr = (k, v) ∨ (pr ∈ l ∧ ¬ pr.1 = k) := by
  unfold ainsert at h
  split at h
  · rw [List.mem_map] at h
    obtain ⟨pr0, hm, he⟩ := h
    by_cases hk : pr0.1 = k
    · rw [if_pos hk] at he
      exact Or.inl he.symm
    · rw [if_neg hk] at he
      exact Or.inr ⟨he ▸ hm, he ▸ hk⟩
  · rename_i hnc
    rw [List.mem_append] at h
    rcases h with h | h
    · refine Or.inr ⟨h, fun hk => hnc ?_⟩
      unfold acontains
      rw [List.any_eq_true]
      exact ⟨pr, h, by simp [hk]⟩
    · rw [List.mem_singleton] at h
      exact Or.inl h

/-- Insert-or-replace preserves key uniqueness. -/
theorem nodup_ainsert_fst {α β : Type} [DecidableEq α] (l : List (α × β))
    (k : α) (v : β) (h : (l.map Prod.fst).Nodup) :
    ((ainsert l k v).map Prod.fst).Nodup := by
  unfold ainsert
  split
  · have heq : (l.map (fun p => if p.1 = k then (k, v) else p)).map Prod.fst
        = l.map Prod.fst := by
      rw [List.map_map]
      apply List.map_congr_left
      intro p _
      by_cases hk : p.1 = k
      · simp [hk]
      · simp [hk]
    rw [heq]
    exact h
  · rename_i hnc
    rw [List.map_append, List.nodup_append]
    refine ⟨h, List.nodup_singleton _, ?_⟩
    intro a ha hb
    rw [List.map_singleton, List.mem_singleton] at hb
    subst hb
    rw [List.mem_map] at ha
    obtain ⟨pr, hm, he⟩ := ha
    apply hnc
    unfold acontains
    rw [List.any_eq_true]
    exact ⟨pr, hm, by simp [he]⟩

/-- A count of entries that all share one key is at most one when the keys
are unique. -/
theorem countP_le_one_of_key {α β : Type} [DecidableEq α]
    (P : α × β → Bool) (k : α) :
    ∀ (l : List (α × β)), (l.map Prod.fst).Nodup →
      (∀ pr ∈ l, P pr = true → pr.1 = k) → l.countP P ≤ 1
  | [], _, _ => by simp
  | hd :: tl, hnd, hkey => by
      rw [List.map_cons, List.nodup_cons] at hnd
      rw [List.countP_cons]
      by_cases hp : P hd = true
      · have hz : tl.countP P = 0 := by
          rw [List.countP_eq_zero]
          intro pr hpr hppr
          apply hnd.1
          have h1 := hkey pr (List.mem_cons_of_mem hd hpr) hppr
          have h2 := hkey hd (List.mem_cons_self hd tl) hp
          rw [h2, ← h1]
          exact List.mem_map.mpr ⟨pr, hpr, rfl⟩
        rw [hz]
        simp [hp]
      · have : tl.countP P ≤ 1 :=
          countP_le_one_of_key P k tl hnd.2
            (fun pr hpr => hkey pr (List.mem_cons_of_mem hd hpr))
        simp [hp]
        omega

/-- Structure eta for path indices. -/
theorem SnekPathIndex.eta (i : SnekPathIndex) :
    (⟨i.public_key, i.path_id⟩ : SnekPathIndex) = i := rfl

/-- The table stage of `teardown_path` keeps every field, except that it may
erase one key from the path table. -/
theorem teardownPathTable_shape (s : RouterState) (fp : Port) (k : PublicKey)
    (pid : SnekPathId) :
    (teardownPath.teardownPathTable s fp k pid).1.publicKey = s.publicKey ∧
    (teardownPath.teardownPathTable s fp k pid).1.ports = s.ports ∧
    (teardownPath.teardownPathTable s fp k pid).1.descending = s.descending ∧
    ((teardownPath.teardownPathTable s fp k pid).1.paths = s.paths ∨
      ∃ kk, (teardownPath.teardownPathTable s fp k pid).1.paths
        = aerase s.paths kk) := by
  unfold teardownPath.teardownPathTable
  cases hf : s.paths.find?
      (fun pr => decide (pr.1.public_key = k) && decide (pr.1.path_id = pid)) with
  | none => exact ⟨rfl, rfl, rfl, Or.inl rfl⟩
  | some pr =>
      dsimp only
      by_cases h0 : fp = 0
      · rw [if_pos h0]
        exact ⟨rfl, rfl, rfl, Or.inr ⟨pr.1, rfl⟩⟩
      · rw [if_neg h0]
        by_cases h1 : fp = pr.2.source
        · rw [if_pos h1]
          exact ⟨rfl, rfl, rfl, Or.inr ⟨pr.1, rfl⟩⟩
        · rw [if_neg h1]
          by_cases h2 : fp = pr.2.destination
          · rw [if_pos h2]
            exact ⟨rfl, rfl, rfl, Or.inr ⟨pr.1, rfl⟩⟩
          · rw [if_neg h2]
            exact ⟨rfl, rfl, rfl, Or.inl rfl⟩

/-- The descending stage of `teardown_path`: either the descending cell is
untouched and the path table at most loses one key, or the cell is cleared
and exactly its key is erased. -/
theorem teardownPathDescending_shape (s : RouterState) (fp : Port)
    (k : PublicKey) (pid : SnekPathId) :
    (teardownPath.teardownPathDescending s fp k pid).1.publicKey = s.publicKey ∧
    (teardownPath.teardownPathDescending s fp k pid).1.ports = s.ports ∧
    (((teardownPath.teardownPathDescending s fp k pid).1.descending
          = s.descending ∧
        ((teardownPath.teardownPathDescending s fp k pid).1.paths = s.paths ∨
          ∃ kk, (teardownPath.teardownPathDescending s fp k pid).1.paths
            = aerase s.paths kk)) ∨
      (∃ d, s.descending = some d ∧
        (teardownPath.teardownPathDescending s fp k pid).1.descending = none ∧
        (teardownPath.teardownPathDescending s fp k pid).1.paths
          = aerase s.paths d.index)) := by
  unfold teardownPath.teardownPathDescending
  cases hd : s.descending with
  | none =>
      obtain ⟨h1, h2, h3, h4⟩ := teardownPathTable_shape s fp k pid
      exact ⟨h1, h2, Or.inl ⟨h3.trans hd, h4⟩⟩
  | some desc =>
      dsimp only
      by_cases hm : desc.index.public_key = k ∧ desc.index.path_id = pid
      · rw [if_pos hm]
        by_cases hfm : fp = desc.destination ∨ fp = 0
        · rw [if_pos hfm]
          exact ⟨rfl, rfl, Or.inr ⟨desc, rfl, rfl, rfl⟩⟩
        · rw [if_neg hfm]
          obtain ⟨h1, h2, h3, h4⟩ := teardownPathTable_shape s fp k pid
          exact ⟨h1, h2, Or.inl ⟨h3.trans hd, h4⟩⟩
      · rw [if_neg hm]
        obtain ⟨h1, h2, h3, h4⟩ := teardownPathTable_shape s fp k pid
        exact ⟨h1, h2, Or.inl ⟨h3.trans hd, h4⟩⟩

/-- `teardown_path` keeps the node key and the port table; the descending
cell is either untouched, the path table at most losing one key, or cleared
together with exactly its path entry. -/
theorem teardownPath_shape (s : RouterState) (fp : Port) (k : PublicKey)
    (pid : SnekPathId) :
    (teardownPath s fp k pid).1.publicKey = s.publicKey ∧
    (teardownPath s fp k pid).1.ports = s.ports ∧
    (((teardownPath s fp k pid).1.descending = s.descending ∧
        ((teardownPath s fp k pid).1.paths = s.paths ∨
          ∃ kk, (teardownPath s fp k pid).1.paths = aerase s.paths kk)) ∨
      (∃ d, s.descending = some d ∧
        (teardownPath s fp k pid).1.descending = none ∧
        (teardownPath s fp k pid).1.paths = aerase s.paths d.index)) := by
  unfold teardownPath
  cases ha : s.ascending with
  | none => exact teardownPathDescending_shape s fp k pid
  | some asc =>
      dsimp only
      by_cases hm : asc.index.public_key = k ∧ asc.index.path_id = pid
      · rw [if_pos hm]
        by_cases hfm : fp = asc.destination ∨ fp = 0
        · rw [if_pos hfm]
          exact ⟨rfl, rfl, Or.inl ⟨rfl, Or.inr ⟨asc.index, rfl⟩⟩⟩
        · rw [if_neg hfm]
          exact teardownPathDescending_shape s fp k pid
      · rw [if_neg hm]
        exact teardownPathDescending_shape s fp k pid

/-- With from-port 0 the table stage of `teardown_path` removes every entry
matching the torn key and path id. -/
theorem teardownPathTable_zero_removes (s : RouterState) (k : PublicKey)
    (pid : SnekPathId) (pr : SnekPathIndex × SnekPath)
    (hm : pr ∈ (teardownPath.teardownPathTable s 0 k pid).1.paths) :
    ¬ (pr.1.public_key = k ∧ pr.1.path_id = pid) := by
  intro hmatch
  unfold teardownPath.teardownPathTable at hm
  cases hf : s.paths.find?
      (fun pr => decide (pr.1.public_key = k) && decide (pr.1.path_id = pid)) with
  | none =>
      rw [hf] at hm
      dsimp only at hm
      have := List.find?_eq_none.mp hf pr hm
      exact this (by simp [hmatch.1, hmatch.2])
  | some pr0 =>
      rw [hf] at hm
      dsimp only at hm
      rw [if_pos rfl] at hm
      dsimp only at hm
      obtain ⟨-, hne⟩ := mem_aerase hm
      have hp0 := List.find?_some hf
      rw [Bool.and_eq_true, decide_eq_true_eq, decide_eq_true_eq] at hp0
      apply hne
      rw [← SnekPathIndex.eta pr.1, ← SnekPathIndex.eta pr0.1,
        hmatch.1, hmatch.2, hp0.1, hp0.2]

/-- With from-port 0 the descending stage of `teardown_path` removes every
entry matching the torn key and path id. -/
theorem teardownPathDescending_zero_removes (s : RouterState) (k : PublicKey)
    (pid : SnekPathId) (pr : SnekPathIndex × SnekPath)
    (hm : pr ∈ (teardownPath.teardownPathDescending s 0 k pid).1.paths) :
    ¬ (pr.1.public_key = k ∧ pr.1.path_id = pid) := by
  intro hmatch
  unfold teardownPath.teardownPathDescending at hm
  cases hd : s.descending with
  | none =>
      rw [hd] at hm
      dsimp only at hm
      exact teardownPathTable_zero_removes s k pid pr hm hmatch
  | some desc =>
      rw [hd] at hm
      dsimp only at hm
      by_cases hmq : desc.index.public_key = k ∧ desc.index.path_id = pid
      · rw [if_pos hmq, if_pos (Or.inr rfl)] at hm
        dsimp only at hm
        obtain ⟨-, hne⟩ := mem_aerase hm
        apply hne
        rw [← SnekPathIndex.eta pr.1, ← SnekPathIndex.eta desc.index,
          hmatch.1, hmatch.2, hmq.1, hmq.2]
      · rw [if_neg hmq] at hm
        exact teardownPathTable_zero_removes s k pid pr hm hmatch

/-- With from-port 0 `teardown_path` removes every entry matching the torn
key and path id (the reason the deferred cleanups leave no stale entry). -/
theorem teardownPath_zero_removes (s : RouterState) (k : PublicKey)
    (pid : SnekPathId) (pr : SnekPathIndex × SnekPath)
    (hm : pr ∈ (teardownPath s 0 k pid).1.paths) :
    ¬ (pr.1.public_key = k ∧ pr.1.path_id = pid) := by
  intro hmatch
  unfold teardownPath at hm
  cases ha : s.ascending with
  | none =>
      rw [ha] at hm
      dsimp only at hm
      exact teardownPathDescending_zero_removes s k pid pr hm hmatch
  | some asc =>
      rw [ha] at hm
      dsimp only at hm
      by_cases hmq : asc.index.public_key = k ∧ asc.index.path_id = pid
      · rw [if_pos hmq, if_pos (Or.inr rfl)] at hm
        dsimp only at hm
        obtain ⟨-, hne⟩ := mem_aerase hm
        apply hne
        rw [← SnekPathIndex.eta pr.1, ← SnekPathIndex.eta asc.index,
          hmatch.1, hmatch.2, hmq.1, hmq.2]
      · rw [if_neg hmq] at hm
        exact teardownPathDescending_zero_removes s k pid pr hm hmatch

/-- `teardown_path` only ever removes path entries. -/
theorem teardownPath_fst_mem (s : RouterState) (fp : Port) (k : PublicKey)
    (pid : SnekPathId) (pr : SnekPathIndex × SnekPath)
    (hm : pr ∈ (teardownPath s fp k pid).1.paths) : pr ∈ s.paths := by
  obtain ⟨-, -, hsh⟩ := teardownPath_shape s fp k pid
  rcases hsh with ⟨-, hp | ⟨kk, hp⟩⟩ | ⟨d, -, -, hp⟩
  · rw [hp] at hm; exact hm
  · rw [hp] at hm; exact (mem_aerase hm).1
  · rw [hp] at hm; exact (mem_aerase hm).1

/-- `teardown_path` keeps the path-table keys unique. -/
theorem teardownPath_fst_nodup (s : RouterState) (fp : Port) (k : PublicKey)
    (pid : SnekPathId) (h : PathsNodup s) :
    PathsNodup (teardownPath s fp k pid).1 := by
  unfold PathsNodup at h ⊢
  obtain ⟨-, -, hsh⟩ := teardownPath_shape s fp k pid
  rcases hsh with ⟨-, hp | ⟨kk, hp⟩⟩ | ⟨d, -, -, hp⟩
  · rw [hp]; exact h
  · rw [hp]; exact nodup_aerase_fst _ _ h
  · rw [hp]; exact nodup_aerase_fst _ _ h

/-- `teardown_path` never increases any count over the path table. -/
theorem teardownPath_fst_countP (s : RouterState) (fp : Port) (k : PublicKey)
    (pid : SnekPathId) (P : SnekPathIndex × SnekPath → Bool) :
    (teardownPath s fp k pid).1.paths.countP P ≤ s.paths.countP P := by
  obtain ⟨-, -, hsh⟩ := teardownPath_shape s fp k pid
  rcases hsh with ⟨-, hp | ⟨kk, hp⟩⟩ | ⟨d, -, -, hp⟩
  · rw [hp]
  · rw [hp]; exact countP_aerase_le _ _ _
  · rw [hp]; exact countP_aerase_le _ _ _

/-- `teardown_path` keeps locally-originated entries indexed by our key. -/
theorem teardownPath_fst_srcSelf (s : RouterState) (fp : Port)
    (k : PublicKey) (pid : SnekPathId) (h : SrcSelf s) :
    SrcSelf (teardownPath s fp k pid).1 := by
  intro pr hm hsrc
  obtain ⟨hpk, -, -⟩ := teardownPath_shape s fp k pid
  rw [hpk]
  exact h pr (teardownPath_fst_mem s fp k pid pr hm) hsrc

/-- `teardown_path` keeps terminal entries tied to the descending cell. -/
theorem teardownPath_fst_dstDesc (s : RouterState) (fp : Port)
    (k : PublicKey) (pid : SnekPathId) (h : DstDesc s) :
    DstDesc (teardownPath s fp k pid).1 := by
  intro pr hm hdst
  obtain ⟨-, -, hsh⟩ := teardownPath_shape s fp k pid
  rcases hsh with ⟨hdesc, hp | ⟨kk, hp⟩⟩ | ⟨d, hsd, hdesc, hp⟩
  · rw [hp] at hm
    obtain ⟨d, hd1, hd2⟩ := h pr hm hdst
    exact ⟨d, hdesc.trans hd1, hd2⟩
  · rw [hp] at hm
    obtain ⟨d, hd1, hd2⟩ := h pr (mem_aerase hm).1 hdst
    exact ⟨d, hdesc.trans hd1, hd2⟩
  · rw [hp] at hm
    obtain ⟨hmem, hne⟩ := mem_aerase hm
    obtain ⟨d', hd1, hd2⟩ := h pr hmem hdst
    rw [hsd] at hd1
    obtain rfl : d = d' := Option.some.inj hd1
    exact absurd hd2 hne

/-- `teardown_path` preserves the whole path-table invariant. -/
theorem teardownPath_inv (s : RouterState) (fp : Port) (k : PublicKey)
    (pid : SnekPathId) (h : PathInv s) : PathInv (teardownPath s fp k pid).1 := by
  obtain ⟨hw, hnd, hcnt, hsrc, hdst⟩ := h
  refine ⟨?_, teardownPath_fst_nodup s fp k pid hnd,
    Nat.le_trans (teardownPath_fst_countP s fp k pid _) hcnt,
    teardownPath_fst_srcSelf s fp k pid hsrc,
    teardownPath_fst_dstDesc s fp k pid hdst⟩
  intro pr hm
  obtain ⟨-, hports, -⟩ := teardownPath_shape s fp k pid
  rw [hports] at hm
  exact hw pr hm

/-- The state produced by `send_teardown_for_existing_path` is the one
produced by `teardown_path`. -/
theorem sendTeardownForExistingPath_fst (s : RouterState) (fp : Port)
    (k : PublicKey) (pid : SnekPathId) :
    (sendTeardownForExistingPath s fp k pid).1 = (teardownPath s fp k pid).1 := rfl

/-- Unfolding one deferred teardown of the queue. -/
theorem runTeardowns_fst_cons (s : RouterState) (k : SnekPathIndex)
    (rest : List SnekPathIndex) :
    (runTeardowns s (k :: rest)).1 =
      (runTeardowns (teardownPath s 0 k.public_key k.path_id).1 rest).1 := rfl

/-- A deferred teardown queue only ever removes path entries. -/
theorem runTeardowns_fst_mem :
    ∀ (sched : List SnekPathIndex) (s : RouterState)
      (pr : SnekPathIndex × SnekPath),
      pr ∈ (runTeardowns s sched).1.paths → pr ∈ s.paths
  | [], _, _, h => h
  | k :: rest, s, pr, h => by
      rw [runTeardowns_fst_cons] at h
      exact teardownPath_fst_mem _ _ _ _ _ (runTeardowns_fst_mem rest _ pr h)

/-- A deferred teardown queue keeps the node key. -/
theorem runTeardowns_fst_publicKey :
    ∀ (sched : List SnekPathIndex) (s : RouterState),
      (runTeardowns s sched).1.publicKey = s.publicKey
  | [], _ => rfl
  | k :: rest, s => by
      rw [runTeardowns_fst_cons, runTeardowns_fst_publicKey rest]
      exact (teardownPath_shape s 0 k.public_key k.path_id).1

/-- A deferred teardown queue keeps the port table. -/
theorem runTeardowns_fst_ports :
    ∀ (sched : List SnekPathIndex) (s : RouterState),
      (runTeardowns s sched).1.ports = s.ports
  | [], _ => rfl
  | k :: rest, s => by
      rw [runTeardowns_fst_cons, runTeardowns_fst_ports rest]
      exact (teardownPath_shape s 0 k.public_key k.path_id).2.1

/-- A deferred teardown queue keeps the path-table keys unique. -/
theorem runTeardowns_fst_nodup :
    ∀ (sched : List SnekPathIndex) (s : RouterState), PathsNodup s →
      PathsNodup (runTeardowns s sched).1
  | [], _, h => h
  | k :: rest, s, h => by
      rw [runTeardowns_fst_cons]
      exact runTeardowns_fst_nodup rest _ (teardownPath_fst_nodup _ _ _ _ h)

/-- A deferred teardown queue never increases any count over the table. -/
theorem runTeardowns_fst_countP :
    ∀ (sched : List SnekPathIndex) (s : RouterState)
      (P : SnekPathIndex × SnekPath → Bool),
      (runTeardowns s sched).1.paths.countP P ≤ s.paths.countP P
  | [], _, _ => Nat.le_refl _
  | k :: rest, s, P => by
      rw [runTeardowns_fst_cons]
      exact Nat.le_trans (runTeardowns_fst_countP rest _ P)
        (teardownPath_fst_countP _ _ _ _ P)

/-- A deferred teardown queue keeps locally-originated entries ours. -/
theorem runTeardowns_fst_srcSelf :
    ∀ (sched : List SnekPathIndex) (s : RouterState), SrcSelf s →
      SrcSelf (runTeardowns s sched).1
  | [], _, h => h
  | k :: rest, s, h => by
      rw [runTeardowns_fst_cons]
      exact runTeardowns_fst_srcSelf rest _ (teardownPath_fst_srcSelf _ _ _ _ h)

/-- A deferred teardown queue keeps terminal entries tied to the descending
cell. -/
theorem runTeardowns_fst_dstDesc :
    ∀ (sched : List SnekPathIndex) (s : RouterState), DstDesc s →
      DstDesc (runTeardowns s sched).1
  | [], _, h => h
  | k :: rest, s, h => by
      rw [runTeardowns_fst_cons]
      exact runTeardowns_fst_dstDesc rest _ (teardownPath_fst_dstDesc _ _ _ _ h)

/-- After a deferred teardown queue has run, no surviving entry carries a
scheduled index. -/
theorem runTeardowns_removes :
    ∀ (sched : List SnekPathIndex) (s : RouterState) (idx : SnekPathIndex),
      idx ∈ sched → ∀ pr ∈ (runTeardowns s sched).1.paths, pr.1 ≠ idx
  | [], _, idx, hidx => absurd hidx (List.not_mem_nil idx)
  | k :: rest, s, idx, hidx => by
      intro pr hpr
      rw [runTeardowns_fst_cons] at hpr
      rcases List.mem_cons.mp hidx with he | hmem
      · subst he
        have hpr' := runTeardowns_fst_mem rest _ pr hpr
        have hz := teardownPath_zero_removes s idx.public_key idx.path_id pr hpr'
        intro hcontra
        exact hz ⟨by rw [hcontra], by rw [hcontra]⟩
      · exact runTeardowns_removes rest _ idx hmem pr hpr

/-- Mapping a list by a count-respecting function never raises a count. -/
theorem countP_map_le {α : Type} (f : α → α) (P : α → Bool)
    (hf : ∀ p, P (f p) = true → P p = true) :
    ∀ l : List α, (l.map f).countP P ≤ l.countP P
  | [] => Nat.le_refl _
  | hd :: tl => by
      rw [List.map_cons, List.countP_cons, List.countP_cons]
      by_cases hp : P (f hd) = true
      · have hp2 := hf hd hp
        simp only [hp, hp2, if_true]
        exact Nat.add_le_add_right (countP_map_le f P hf tl) 1
      · simp only [hp, if_false]
        exact Nat.le_trans (countP_map_le f P hf tl)
          (Nat.le_add_right _ _)

/-- Inserting a non-matching value never raises a count. -/
theorem countP_ainsert_le {α β : Type} [DecidableEq α] (l : List (α × β))
    (k : α) (v : β) (P : α × β → Bool) (hkv : P (k, v) = false) :
    (ainsert l k v).countP P ≤ l.countP P := by
  unfold ainsert
  split
  · refine countP_map_le _ P ?_ l
    intro p hp
    by_cases hk : p.1 = k
    · rw [if_pos hk, hkv] at hp
      cases hp
    · rwa [if_neg hk] at hp
  · rw [List.countP_append]
    simp [List.countP_cons, hkv]

/-- A port assigned to a remote peer is never the reserved port 0. -/
theorem portOf_ne_zero (s : RouterState) (q : PublicKey) (p : Port)
    (hq : s.publicKey ≠ q) (hp : s.portOf q = some p) (hw : PortsWF s) :
    p ≠ 0 := by
  unfold RouterState.portOf at hp
  rw [if_neg hq] at hp
  cases hf : s.ports.find? (fun pr => decide (pr.2 = some q)) with
  | none => rw [hf] at hp; cases hp
  | some pr =>
      rw [hf, Option.map_some'] at hp
      have hpr := Option.some.inj hp
      rw [← hpr]
      exact hw pr (List.mem_of_find?_eq_some hf)

/-- Port 0 always resolves to the local node. -/
theorem getPeerOnPort_zero (s : RouterState) :
    s.getPeerOnPort 0 = some s.publicKey := rfl

/-- An accepted bootstrap ACK never names our own key as its source. -/
theorem handleBootstrapAckUpdate_ne (s : RouterState) (ack : SnekBootstrapAck)
    (now : Nat) (h : handleBootstrapAckUpdate s ack now = true) :
    ack.source_key ≠ s.publicKey := by
  intro he
  unfold handleBootstrapAckUpdate at h
  rw [if_pos he] at h
  cases h

/-- Every completing run of `handle_setup` on a frame arriving through a real
port (never port 0) preserves the path-table invariant. -/
theorem handleSetup_inv (s : RouterState) (fp : Port) (rx : SnekSetup)
    (nh : Port) (now : Nat) (s' : RouterState) (out : List Output)
    (hfp : fp ≠ 0) (hinv : PathInv s)
    (h : handleSetup s fp rx nh now = some (s', out)) : PathInv s' := by
  obtain ⟨hw, hnd, hcnt, hsrc, hdst⟩ := hinv
  unfold handleSetup at h
  split at h
  · exact Option.noConfusion h
  · dsimp only at h
    split at h
    · -- duplicate index: reject plus deferred teardown of the existing path
      split at h
      · exact Option.noConfusion h
      · rw [Option.some.injEq, Prod.mk.injEq] at h
        obtain ⟨h1, -⟩ := h
        subst h1
        rw [sendTeardownForExistingPath_fst]
        exact teardownPath_inv _ _ _ _ ⟨hw, hnd, hcnt, hsrc, hdst⟩
    · split at h
      · -- terminal branch
        split at h
        · -- update rejected: state unchanged
          split at h
          · exact Option.noConfusion h
          · rw [Option.some.injEq, Prod.mk.injEq] at h
            obtain ⟨h1, -⟩ := h
            subst h1
            exact ⟨hw, hnd, hcnt, hsrc, hdst⟩
        · -- update accepted: install the terminal entry
          split at h
          · exact Option.noConfusion h
          · split at h
            · -- a previous descending path exists: its deferred teardown runs
              rename_i ackPeer hack prev hdescS
              rw [Option.some.injEq, Prod.mk.injEq] at h
              obtain ⟨h1, -⟩ := h
              subst h1
              rw [sendTeardownForExistingPath_fst]
              refine ⟨?_, ?_, ?_, ?_, ?_⟩
              · intro pr hm
                rw [(teardownPath_shape _ _ _ _).2.1] at hm
                exact hw pr hm
              · exact teardownPath_fst_nodup _ _ _ _
                  (nodup_ainsert_fst _ _ _ hnd)
              · refine Nat.le_trans (Nat.le_trans
                  (teardownPath_fst_countP _ _ _ _ _) ?_) hcnt
                exact countP_ainsert_le _ _ _ _ (decide_eq_false hfp)
              · refine teardownPath_fst_srcSelf _ _ _ _ ?_
                intro pr hm hs0
                rcases mem_ainsert hm with rfl | ⟨hmem, -⟩
                · exact absurd hs0 hfp
                · exact hsrc pr hmem hs0
              · intro pr hm hd0
                have hm1 := teardownPath_fst_mem _ _ _ _ _ hm
                have hz := teardownPath_zero_removes _ _ _ pr hm
                rcases mem_ainsert hm1 with rfl | ⟨hmem, hne⟩
                · rcases (teardownPath_shape _ _ _ _).2.2 with
                    ⟨hdescEq, -⟩ | ⟨d, hsd, -, hpaths⟩
                  · exact ⟨_, hdescEq, rfl⟩
                  · have hde : _ = d := Option.some.inj hsd
                    rw [hpaths] at hm
                    obtain ⟨-, hne2⟩ := mem_aerase hm
                    exact absurd (by rw [← hde]) hne2
                · obtain ⟨d, hd1, hd2⟩ := hdst pr hmem hd0
                  rw [hdescS] at hd1
                  obtain rfl : prev = d := Option.some.inj hd1
                  exact absurd ⟨by rw [hd2], by rw [hd2]⟩ hz
            · -- no previous descending path: plain insert
              rename_i ackPeer hack hdescN
              rw [Option.some.injEq, Prod.mk.injEq] at h
              obtain ⟨h1, -⟩ := h
              subst h1
              refine ⟨?_, nodup_ainsert_fst _ _ _ hnd, ?_, ?_, ?_⟩
              · intro pr hm
                exact hw pr hm
              · exact Nat.le_trans
                  (countP_ainsert_le _ _ _ _ (decide_eq_false hfp)) hcnt
              · intro pr hm hs0
                rcases mem_ainsert hm with rfl | ⟨hmem, -⟩
                · exact absurd hs0 hfp
                · exact hsrc pr hmem hs0
              · intro pr hm hd0
                rcases mem_ainsert hm with rfl | ⟨hmem, -⟩
                · exact ⟨_, rfl, rfl⟩
                · obtain ⟨d, hd1, -⟩ := hdst pr hmem hd0
                  rw [hdescN] at hd1
                  exact Option.noConfusion hd1
      · -- intermediate branch
        split at h
        · exact Option.noConfusion h
        · rename_i nextPeer hpeer
          split at h
          · -- next hop is ourselves: reject, state unchanged
            split at h
            · exact Option.noConfusion h
            · rw [Option.some.injEq, Prod.mk.injEq] at h
              obtain ⟨h1, -⟩ := h
              subst h1
              exact ⟨hw, hnd, hcnt, hsrc, hdst⟩
          · -- forward and install the intermediate entry
            rename_i hnp
            rw [Option.some.injEq, Prod.mk.injEq] at h
            obtain ⟨h1, -⟩ := h
            subst h1
            have hnh0 : nh ≠ 0 := by
              intro hz
              rw [hz, getPeerOnPort_zero, Option.some.injEq] at hpeer
              exact hnp hpeer.symm
            refine ⟨?_, nodup_ainsert_fst _ _ _ hnd, ?_, ?_, ?_⟩
            · intro pr hm
              exact hw pr hm
            · exact Nat.le_trans
                (countP_ainsert_le _ _ _ _ (decide_eq_false hfp)) hcnt
            · intro pr hm hs0
              rcases mem_ainsert hm with rfl | ⟨hmem, -⟩
              · exact absurd hs0 hfp
              · exact hsrc pr hmem hs0
            · intro pr hm hd0
              rcases mem_ainsert hm with rfl | ⟨hmem, -⟩
              · exact absurd hd0 hnh0
              · exact hdst pr hmem hd0

/-- The table scan of `handle_setup_ack` only flips `active` flags: the
keys, source ports and destination ports of the table are untouched. -/
theorem handleSetupAckLoop_map (s : RouterState) (fp : Port)
    (rx : SnekSetupAck) :
    ∀ (l : List (SnekPathIndex × SnekPath))
      (acc : Option SnekPath × Option SnekPath)
      (r : List (SnekPathIndex × SnekPath) × Option SnekPath ×
        Option SnekPath × List Output),
      handleSetupAckLoop s fp rx l acc = some r →
      r.1.map (fun pr => (pr.1, pr.2.source, pr.2.destination)) =
        l.map (fun pr => (pr.1, pr.2.source, pr.2.destination))
  | [], acc, r, h => by
      unfold handleSetupAckLoop at h
      rw [Option.some.injEq] at h
      rw [← h]
  | (k, e) :: rest, acc, r, h => by
      unfold handleSetupAckLoop at h
      split at h
      · rw [Option.map_eq_some'] at h
        obtain ⟨r0, hr0, hmap⟩ := h
        rw [← hmap, List.map_cons, List.map_cons,
          handleSetupAckLoop_map s fp rx rest acc r0 hr0]
      · split at h
        · split at h
          · exact Option.noConfusion h
          · dsimp only at h
            rw [Option.map_eq_some'] at h
            obtain ⟨r0, hr0, hmap⟩ := h
            rw [← hmap, List.map_cons, List.map_cons,
              handleSetupAckLoop_map s fp rx rest _ r0 hr0]
        · rw [Option.map_eq_some'] at h
          obtain ⟨r0, hr0, hmap⟩ := h
          rw [← hmap, List.map_cons, List.map_cons,
            handleSetupAckLoop_map s fp rx rest acc r0 hr0]

/-- Every completing run of `handle_setup_ack` preserves the path-table
invariant: it activates entries but never adds, removes or re-ports one. -/
theorem handleSetupAck_inv (s : RouterState) (fp : Port) (rx : SnekSetupAck)
    (s' : RouterState) (out : List Output) (hinv : PathInv s)
    (h : handleSetupAck s fp rx = some (s', out)) : PathInv s' := by
  obtain ⟨hw, hnd, hcnt, hsrc, hdst⟩ := hinv
  unfold handleSetupAck at h
  split at h
  · exact Option.noConfusion h
  · rename_i newPaths asc cand outs heq
    rw [Option.some.injEq, Prod.mk.injEq] at h
    obtain ⟨h1, -⟩ := h
    subst h1
    have hmap := handleSetupAckLoop_map s fp rx s.paths
      (s.ascending, s.candidate) _ heq
    have hfst : newPaths.map Prod.fst = s.paths.map Prod.fst := by
      have h1 := congrArg
        (List.map (fun x : SnekPathIndex × Port × Port => x.1)) hmap
      rw [List.map_map, List.map_map] at h1
      exact h1
    have hcnt2 : newPaths.countP (fun pr => decide (pr.2.source = 0)) =
        s.paths.countP (fun pr => decide (pr.2.source = 0)) := by
      have h1 := congrArg
        (List.countP (fun x : SnekPathIndex × Port × Port => decide (x.2.1 = 0)))
        hmap
      rw [List.countP_map, List.countP_map] at h1
      exact h1
    have hmem : ∀ pr ∈ newPaths, ∃ pr0 ∈ s.paths, pr0.1 = pr.1 ∧
        pr0.2.source = pr.2.source ∧ pr0.2.destination = pr.2.destination := by
      intro pr hpr
      have hin : (pr.1, pr.2.source, pr.2.destination) ∈
          s.paths.map (fun pr => (pr.1, pr.2.source, pr.2.destination)) := by
        rw [← hmap]
        exact List.mem_map_of_mem _ hpr
      rw [List.mem_map] at hin
      obtain ⟨pr0, hpr0, he⟩ := hin
      simp only [Prod.mk.injEq] at he
      exact ⟨pr0, hpr0, he.1, he.2.1, he.2.2⟩
    refine ⟨?_, ?_, ?_, ?_, ?_⟩
    · intro pr hm
      exact hw pr hm
    · show (newPaths.map Prod.fst).Nodup
      rw [hfst]
      exact hnd
    · show newPaths.countP (fun pr => decide (pr.2.source = 0)) ≤ 1
      rw [hcnt2]
      exact hcnt
    · intro pr hpr h0
      obtain ⟨pr0, hpr0, hk, hs0, -⟩ := hmem pr hpr
      have := hsrc pr0 hpr0 (hs0.trans h0)
      rw [← hk]
      exact this
    · intro pr hpr h0
      obtain ⟨pr0, hpr0, hk, -, hd0⟩ := hmem pr hpr
      obtain ⟨d, hd1, hd2⟩ := hdst pr0 hpr0 (hd0.trans h0)
      refine ⟨d, hd1, ?_⟩
      rw [← hk]
      exact hd2

/-- Every completing run of `handle_bootstrap_ack` preserves the path-table
invariant: the new locally-originated entry is installed only after every
other locally-originated path has been scheduled for teardown, and the
deferred teardowns remove them all. -/
theorem handleBootstrapAck_inv (s : RouterState) (ack : SnekBootstrapAck)
    (now : Nat) (s' : RouterState) (out : List Output) (hinv : PathInv s)
    (h : handleBootstrapAck s ack now = some (s', out)) : PathInv s' := by
  obtain ⟨hw, hnd, hcnt, hsrc, hdst⟩ := hinv
  unfold handleBootstrapAck at h
  split at h
  · rw [Option.some.injEq, Prod.mk.injEq] at h
    obtain ⟨h1, -⟩ := h
    subst h1
    exact ⟨hw, hnd, hcnt, hsrc, hdst⟩
  · rename_i hupd
    dsimp only at h
    split at h
    · rw [Option.some.injEq, Prod.mk.injEq] at h
      obtain ⟨h1, -⟩ := h
      subst h1
      exact ⟨hw, hnd, hcnt, hsrc, hdst⟩
    · rename_i nextPeer hhop
      split at h
      · rw [Option.some.injEq, Prod.mk.injEq] at h
        obtain ⟨h1, -⟩ := h
        subst h1
        exact ⟨hw, hnd, hcnt, hsrc, hdst⟩
      · rename_i hne2
        split at h
        · exact Option.noConfusion h
        · rename_i destPort hport
          rw [Option.some.injEq, Prod.mk.injEq] at h
          obtain ⟨h1, -⟩ := h
          subst h1
          have hupdT : handleBootstrapAckUpdate s ack now = true := by
            cases hb : handleBootstrapAckUpdate s ack now
            · rw [hb] at hupd
              exact absurd hupd (by decide)
            · rfl
          have hackne := handleBootstrapAckUpdate_ne s ack now hupdT
          have hdp0 : destPort ≠ 0 := portOf_ne_zero s nextPeer destPort hne2 hport hw
          refine ⟨?_, ?_, ?_, ?_, ?_⟩
          · intro pr hm
            rw [runTeardowns_fst_ports] at hm
            exact hw pr hm
          · exact runTeardowns_fst_nodup _ _ (nodup_ainsert_fst _ _ _ hnd)
          · refine countP_le_one_of_key _ ⟨s.publicKey, ack.path_id⟩ _
              (runTeardowns_fst_nodup _ _ (nodup_ainsert_fst _ _ _ hnd)) ?_
            intro pr hpr hp
            have hs0 : pr.2.source = 0 := of_decide_eq_true hp
            have hm1 := runTeardowns_fst_mem _ _ pr hpr
            rcases mem_ainsert hm1 with rfl | ⟨hmem, hne⟩
            · rfl
            · have hpk := hsrc pr hmem hs0
              have hnot : pr.1.public_key ≠ ack.source_key := by
                rw [hpk]
                exact fun hcon => hackne hcon.symm
              have hfil : (decide (pr.2.source = 0)
                  && !decide (pr.1.public_key = ack.source_key)) = true := by
                rw [hs0]
                simp [hnot]
              have hsched : pr.1 ∈ List.map (fun x : SnekPathIndex × SnekPath => x.1)
                  (List.filter (fun pr => decide (pr.2.source = 0)
                    && !decide (pr.1.public_key = ack.source_key)) s.paths) :=
                List.mem_map.mpr ⟨pr, List.mem_filter.mpr ⟨hmem, hfil⟩, rfl⟩
              exact absurd rfl (runTeardowns_removes _ _ pr.1 hsched pr hpr)
          · refine runTeardowns_fst_srcSelf _ _ ?_
            intro pr hm h0
            rcases mem_ainsert hm with rfl | ⟨hmem, -⟩
            · rfl
            · exact hsrc pr hmem h0
          · refine runTeardowns_fst_dstDesc _ _ ?_
            intro pr hm h0
            rcases mem_ainsert hm with rfl | ⟨hmem, -⟩
            · exact absurd h0 hdp0
            · exact hdst pr hmem h0

/-- With unique keys and every terminal entry tied to the descending cell,
at most one entry is terminal. -/
theorem destZero_le_one (s : RouterState) (hnd : PathsNodup s)
    (hd : DstDesc s) : destZeroCount s ≤ 1 := by
  show s.paths.countP (fun pr => decide (pr.2.destination = 0)) ≤ 1
  cases hdesc : s.descending with
  | none =>
      have hz : s.paths.countP (fun pr => decide (pr.2.destination = 0)) = 0 := by
        rw [List.countP_eq_zero]
        intro pr hpr hppr
        obtain ⟨d, hd1, -⟩ := hd pr hpr (of_decide_eq_true hppr)
        rw [hdesc] at hd1
        exact Option.noConfusion hd1
      rw [hz]
      exact Nat.zero_le 1
  | some d =>
      refine countP_le_one_of_key _ d.index _ hnd ?_
      intro pr hpr hppr
      obtain ⟨d2, hd1, hk⟩ := hd pr hpr (of_decide_eq_true hppr)
      rw [hdesc] at hd1
      obtain rfl : d = d2 := Option.some.inj hd1
      exact hk

/-- Every reachable router state satisfies the path-table invariant. -/
theorem reachable_pathInv (s : RouterState) (h : Reachable s) : PathInv s := by
  induction h with
  | init s hp hd hw =>
      refine ⟨hw, ?_, ?_, ?_, ?_⟩
      · show (s.paths.map Prod.fst).Nodup
        rw [hp]
        exact List.nodup_nil
      · show s.paths.countP (fun pr => decide (pr.2.source = 0)) ≤ 1
        rw [hp]
        exact Nat.zero_le 1
      · intro pr hm _
        rw [hp] at hm
        exact absurd hm (List.not_mem_nil pr)
      · intro pr hm _
        rw [hp] at hm
        exact absurd hm (List.not_mem_nil pr)
  | drift s s' hr hp hd hpk hw ih =>
      obtain ⟨-, hnd, hcnt, hsrc, hdst⟩ := ih
      refine ⟨hw, ?_, ?_, ?_, ?_⟩
      · show (s'.paths.map Prod.fst).Nodup
        rw [hp]
        exact hnd
      · show s'.paths.countP (fun pr => decide (pr.2.source = 0)) ≤ 1
        rw [hp]
        exact hcnt
      · intro pr hm h0
        rw [hp] at hm
        rw [hpk]
        exact hsrc pr hm h0
      · intro pr hm h0
        rw [hp] at hm
        obtain ⟨d, hd1, hk⟩ := hdst pr hm h0
        exact ⟨d, hd.trans hd1, hk⟩
  | setup s q fp rx nh now s' out hr hq hport hh ih =>
      exact handleSetup_inv s fp rx nh now s' out
        (portOf_ne_zero s q fp (fun hc => hq hc.symm) hport ih.1) ih hh
  | bootstrapAck s ack now s' out hr hh ih =>
      exact handleBootstrapAck_inv s ack now s' out ih hh
  | teardown s fp k pid hr ih =>
      exact teardownPath_inv s fp k pid ih
  | setupAck s q fp rx s' out hr hq hport hh ih =>
      exact handleSetupAck_inv s fp rx s' out ih hh

/-- C2: in every reachable state of the path table — from a fresh router
through any interleaving of tree-plane changes, `handle_setup`,
`handle_setup_ack`, `handle_bootstrap_ack`, `teardown_path` and the deferred
teardowns those handlers spawn — at most one installed path entry has source
port 0 (the locally originated ascending path) and at most one has
destination port 0 (the terminal descending path). -/
theorem c2_at_most_one_local_terminal (s : RouterState) (h : Reachable s) :
    sourceZeroCount s ≤ 1 ∧ destZeroCount s ≤ 1 := by
  obtain ⟨-, hnd, hcnt, -, hdst⟩ := reachable_pathInv s h
  exact ⟨hcnt, destZero_le_one s hnd hdst⟩

/-- The at-most-one property evaluated at a freshly created router. -/
theorem c2_at_most_one_local_terminal_witness :
    sourceZeroCount (lonelyState pkOne) ≤ 1 ∧
      destZeroCount (lonelyState pkOne) ≤ 1 :=
  c2_at_most_one_local_terminal (lonelyState pkOne)
    (Reachable.init (lonelyState pkOne) rfl rfl
      (fun pr hpr => absurd hpr (List.not_mem_nil pr)))

end RustPinecone
